import Mathlib

/-!
Verification development for the MiniRust-style executable semantics and its
tooling (pretty-printer, tests, driver).

The repository provides the tooling sources (pretty-printer `fmt` module,
minitest programs, the driver); the abstract machine itself is consumed from a
library crate whose sources are not part of the repository.  Consequently the
machine (types, memory of locals, expression evaluation, the
call/become/return state machine, intrinsics and the outcome classifier) is
modelled here from the specification, while the pretty-printer is embedded
directly from `src/tooling/miniutil/src/fmt/function.rs` and
`src/tooling/miniutil/src/fmt/expr.rs`.
-/

/-! ## Shared type model (spec §3: Type & Layout) -/

/-- An integer type: signedness and size in bytes (`u16` is `⟨false, 2⟩`,
`i32` is `⟨true, 4⟩`, `usize` is `⟨false, 8⟩`). -/
structure IntType where
  signed : Bool
  size : Nat
deriving DecidableEq, Repr

/-- Mutability tag of a reference. -/
inductive Mutability where
  | mutable
  | immutable
deriving DecidableEq, Repr

/-- Pointer types: raw pointers and references with a mutability tag
(the two shapes matched by `fmt_value_expr` for `AddrOf`). -/
inductive PtrType where
  | raw
  | ref (mutbl : Mutability)
deriving DecidableEq, Repr

mutual
/-- The type model (spec §3): scalar integer and boolean types, pointers,
and the composite types: tuples (named/offset fields with overall
size/alignment), fixed-count arrays, and unions. -/
inductive Ty where
  | int (it : IntType)
  | bool
  | ptr (pt : PtrType)
  | tuple (fields : Fields) (size : Nat) (align : Nat)
  | array (elem : Ty) (count : Nat)
  | union (fields : Fields) (size : Nat) (align : Nat)
deriving DecidableEq, Repr
/-- Ordered field list of a tuple/union: each field is a byte offset paired
with a type. -/
inductive Fields where
  | nil
  | cons (offset : Nat) (ty : Ty) (tail : Fields)
deriving DecidableEq, Repr
end

/-- A place type: a type together with the alignment the place demands
(mirrors `PlaceType { ty, align }`). -/
structure PlaceType where
  ty : Ty
  align : Nat
deriving DecidableEq, Repr

/-- Argument passing convention (glossary "ABI"): register-passed, or a
sized/aligned stack slot (mirrors `ArgAbi::Register` / `ArgAbi::Stack`). -/
inductive ArgAbi where
  | register
  | stack (size : Nat) (align : Nat)
deriving DecidableEq, Repr

/-- The `i32` place type used by the minitest builders
(`<i32>::get_ptype()`). -/
def i32PTy : PlaceType := ⟨.int ⟨true, 4⟩, 4⟩

/-- The `usize` place type (`<usize>::get_ptype()`). -/
def usizePTy : PlaceType := ⟨.int ⟨false, 8⟩, 8⟩

/-- The `bool` place type (`<bool>::get_ptype()`). -/
def boolPTy : PlaceType := ⟨.bool, 1⟩

/-- The unit place type (`<()>::get_ptype()`): the empty tuple. -/
def unitPTy : PlaceType := ⟨.tuple .nil 0 1, 1⟩

/-! ## Abstract machine (spec §4.2–§4.4), modelled from the spec

The machine sources are not in the repository, so the fragment exercised by
the claims is modelled from the specification: functions made of basic blocks
of statements and a terminator; per-thread frame stacks; `Call`, `Become`
(frame replacement with inherited continuation), `Return`, `Goto`, `If`,
`Unreachable`; the `Exit` and `PrintStdout` intrinsics; locals that are
storage-dead, live-but-uninitialised, or initialised; UB on loading
uninitialised data; `IllFormed` for structurally broken programs. -/

/-- Machine values: integers, booleans, and function pointers. -/
inductive Value where
  | int (v : Int)
  | bool (b : Bool)
  | fn (f : Nat)
deriving DecidableEq, Repr

/-- Modelled from the spec: a place expression of the machine fragment
the claims exercise — a local variable (`local(i)` in the builders). -/
inductive MPlace where
  | loc (l : Nat)
deriving DecidableEq, Repr

/-- Modelled from the spec: value expressions of the machine fragment the
claims exercise: integer/boolean constants, function pointers, loads from a
place, integer add/sub at a given integer type, and integer equality. -/
inductive MExpr where
  | constInt (it : IntType) (v : Int)
  | constBool (b : Bool)
  | fnPtr (f : Nat)
  | load (p : MPlace)
  | add (it : IntType) (l r : MExpr)
  | sub (it : IntType) (l r : MExpr)
  | eq (l r : MExpr)
deriving DecidableEq, Repr

/-- Statements (spec §3): assignment of a value-expression into a place, and
the storage-liveness markers. -/
inductive MStmt where
  | assign (dst : MPlace) (src : MExpr)
  | storageLive (l : Nat)
  | storageDead (l : Nat)
deriving DecidableEq, Repr

/-- The intrinsics the claims exercise (spec §4.3): `Exit` and
`PrintStdout`. -/
inductive MIntrinsic where
  | exit
  | printStdout
deriving DecidableEq, Repr

/-- Terminators (spec §3): `Goto`, `If`, `Unreachable`, `Return`, `Call`,
`Become` and `CallIntrinsic`. -/
inductive MTerm where
  | goto (bb : Nat)
  | ite (condition : MExpr) (thenBb : Nat) (elseBb : Nat)
  | unreachable
  | ret
  | call (callee : MExpr) (arguments : List (MExpr × ArgAbi))
      (retSlot : Option (MPlace × ArgAbi)) (nextBlock : Option Nat)
  | become (callee : MExpr) (arguments : List (MExpr × ArgAbi))
  | callIntrinsic (intrinsic : MIntrinsic) (arguments : List MExpr)
      (retSlot : Option MPlace) (nextBlock : Option Nat)
deriving DecidableEq, Repr

/-- A basic block: statements followed by exactly one terminator. -/
structure MBlock where
  statements : List MStmt
  terminator : MTerm
deriving DecidableEq, Repr

/-- A function (spec §3): argument locals with their ABIs, an optional
return local with its ABI, the local declarations, the named blocks and the
start block. -/
structure MFunction where
  args : List (Nat × ArgAbi)
  ret : Option (Nat × ArgAbi)
  locals : List (Nat × PlaceType)
  blocks : List (Nat × MBlock)
  start : Nat
deriving DecidableEq, Repr

/-- A program: named functions plus a distinguished start function name. -/
structure MProgram where
  functions : List (Nat × MFunction)
  start : Nat
deriving DecidableEq, Repr

/-- Terminal outcomes (spec §4.4): `Ub` with a message, `MachineStop`,
`IllFormed`, plus the implementation-defined outcome the spec reserves for
unresolved concurrency deadlock (§9 open question). -/
inductive TermInfo where
  | Ub (msg : String)
  | MachineStop
  | IllFormed
  | Deadlock
deriving DecidableEq, Repr

/-- State of one local: storage-live but uninitialised, or initialised with a
value.  A local absent from the frame's map is storage-dead. -/
inductive LocalVal where
  | uninit
  | val (v : Value)
deriving DecidableEq, Repr

/-- The return continuation a frame inherits from its creator (spec §9
design note): the caller's return place, if any, and the caller's block to
resume at.  `Become` propagates it unchanged. -/
structure RetCont where
  retSlot : Option MPlace
  nextBlock : Option Nat
deriving DecidableEq, Repr

/-- A frame: the function it executes, its live locals, the current block, a
cursor into the block's statements, and the inherited return continuation
(`none` for the start frame). -/
structure Frame where
  fnName : Nat
  locals : List (Nat × LocalVal)
  block : Nat
  stmtIdx : Nat
  cont : Option RetCont
deriving DecidableEq, Repr

/-- Machine state: the (single) thread's frame stack and the accumulated
standard-output lines. -/
structure MState where
  stack : List Frame
  out : List String
deriving DecidableEq, Repr

/-- Result of one machine step: a successor state, or termination with an
outcome and the final output. -/
inductive StepRes where
  | next (s : MState)
  | done (t : TermInfo) (out : List String)
deriving DecidableEq, Repr

/-- Look up a function by name. -/
def lookupFn (p : MProgram) (f : Nat) : Option MFunction :=
  (p.functions.find? (fun x => x.1 = f)).map Prod.snd

/-- Look up a block by name inside a function. -/
def lookupBlock (f : MFunction) (b : Nat) : Option MBlock :=
  (f.blocks.find? (fun x => x.1 = b)).map Prod.snd

/-- Look up the declared place type of a local. -/
def lookupLocalTy (f : MFunction) (l : Nat) : Option PlaceType :=
  (f.locals.find? (fun x => x.1 = l)).map Prod.snd

/-- Look up the current state of a local in a frame (`none` = dead). -/
def lookupLocal (fr : Frame) (l : Nat) : Option LocalVal :=
  (fr.locals.find? (fun x => x.1 = l)).map Prod.snd

/-- Replace (or add) the binding of local `l` in a frame's local map. -/
def setLocal (ls : List (Nat × LocalVal)) (l : Nat) (v : LocalVal) :
    List (Nat × LocalVal) :=
  match ls with
  | [] => [(l, v)]
  | (k, w) :: rest => if k = l then (l, v) :: rest else (k, w) :: setLocal rest l v

/-- Remove the binding of local `l` (storage-dead). -/
def removeLocal (ls : List (Nat × LocalVal)) (l : Nat) : List (Nat × LocalVal) :=
  ls.filter (fun x => x.1 ≠ l)

/-- Wrap a mathematical integer into the representable range of an integer
type (two's complement for signed types). -/
def wrapInt (it : IntType) (v : Int) : Int :=
  let m : Int := (2 : Int) ^ (8 * it.size)
  if it.signed then ((v + m / 2) % m + m) % m - m / 2 else (v % m + m) % m

/-- Modelled from the spec: a debug-style rendering of a type, used in the
validity-invariant UB message (the test compares against the Rust `Debug`
form of the loaded place type). -/
def tyDbg : Ty → String
  | .int it => (if it.signed then "Int(i" else "Int(u") ++ toString (8 * it.size) ++ ")"
  | .bool => "Bool"
  | .ptr _ => "Ptr"
  | .tuple _ _ _ => "Tuple"
  | .array _ _ => "Array"
  | .union _ _ _ => "Union"

/-- Modelled from the spec: debug-style rendering of a place type. -/
def ptyDbg (pty : PlaceType) : String :=
  "PlaceType \x7b ty: " ++ tyDbg pty.ty ++ ", align: Align(" ++ toString pty.align ++ ") \x7d"

/-- The UB message for a load whose bytes violate the loaded type's validity
invariant (spec §4.1: the message must name the type and the violation;
mirrors the string asserted by the `uninit_read` test). -/
def uninitLoadMsg (pty : PlaceType) : String :=
  "load at type " ++ ptyDbg pty ++ " but the data in memory violates the validity invariant"

/-- The UB message for an argument-count mismatch at a call site
(asserted verbatim by the `become_arg_count` test). -/
def ubNumArgsMsg : String := "call ABI violation: number of arguments does not agree"

/-- The UB message for a per-slot argument-ABI mismatch at a call site
(asserted verbatim by the `become_arg_abi` test). -/
def ubArgAbiMsg : String := "call ABI violation: argument ABI does not agree"

/-- Modelled from the spec: read a local for a load: UB if the local is
storage-dead, UB with the validity-invariant message if it is live but
uninitialised (§4.1: any violation is UB, not a panic, and must name the
type). -/
def readLocal (f : MFunction) (fr : Frame) (l : Nat) : Except String Value :=
  match lookupLocal fr l with
  | none => .error "access to a local that is not storage-live"
  | some .uninit =>
    match lookupLocalTy f l with
    | some pty => .error (uninitLoadMsg pty)
    | none => .error "load from undeclared local"
  | some (.val v) => .ok v

/-- Modelled from the spec: evaluate a value-expression in a frame
(§4.1). -/
def evalExpr (f : MFunction) (fr : Frame) : MExpr → Except String Value
  | .constInt it v => .ok (.int (wrapInt it v))
  | .constBool b => .ok (.bool b)
  | .fnPtr g => .ok (.fn g)
  | .load (.loc l) => readLocal f fr l
  | .add it a b => do
    match (← evalExpr f fr a), (← evalExpr f fr b) with
    | .int x, .int y => .ok (.int (wrapInt it (x + y)))
    | _, _ => .error "arithmetic on non-integer value"
  | .sub it a b => do
    match (← evalExpr f fr a), (← evalExpr f fr b) with
    | .int x, .int y => .ok (.int (wrapInt it (x - y)))
    | _, _ => .error "arithmetic on non-integer value"
  | .eq a b => do
    match (← evalExpr f fr a), (← evalExpr f fr b) with
    | .int x, .int y => .ok (.bool (x = y))
    | _, _ => .error "comparison on non-integer value"

/-- Evaluate a list of call arguments, left to right. -/
def evalArgs (f : MFunction) (fr : Frame) : List (MExpr × ArgAbi) → Except String (List Value)
  | [] => .ok []
  | (e, _) :: rest => do
    let v ← evalExpr f fr e
    let vs ← evalArgs f fr rest
    .ok (v :: vs)

/-- Render a value for `PrintStdout` (spec §4.3). -/
def fmtVal : Value → String
  | .int v => toString v
  | .bool b => toString b
  | .fn f => "f" ++ toString f

/-- Execute one statement in the top frame (spec §4.2).  The source
value-expression is evaluated first; any UB it raises ends the run. -/
def stmtStep (f : MFunction) (fr : Frame) (rest : List Frame) (out : List String) :
    MStmt → StepRes
  | .assign (.loc l) src =>
    match evalExpr f fr src with
    | .error m => .done (.Ub m) out
    | .ok v =>
      match lookupLocal fr l with
      | none => .done (.Ub "write to a local that is not storage-live") out
      | some _ =>
        .next ⟨{ fr with locals := setLocal fr.locals l (.val v),
                         stmtIdx := fr.stmtIdx + 1 } :: rest, out⟩
  | .storageLive l =>
    .next ⟨{ fr with locals := setLocal fr.locals l .uninit,
                     stmtIdx := fr.stmtIdx + 1 } :: rest, out⟩
  | .storageDead l =>
    .next ⟨{ fr with locals := removeLocal fr.locals l,
                     stmtIdx := fr.stmtIdx + 1 } :: rest, out⟩

/-- Build the callee frame for `Call`/`Become`: freshly allocated locals with
the arguments bound to the callee's declared argument locals, the declared
return local allocated but uninitialised, control at the callee's start
block (spec §4.2). -/
def mkFrame (fname : Nat) (g : MFunction) (vals : List Value) (cont : Option RetCont) :
    Frame :=
  { fnName := fname
    locals := (g.args.zip vals).map (fun x => (x.1.1, LocalVal.val x.2)) ++
      (match g.ret with
       | some (rl, _) => [(rl, LocalVal.uninit)]
       | none => [])
    block := g.start
    stmtIdx := 0
    cont := cont }

/-- Shared argument discipline of `Call` and `Become` (spec §4.2): the callee
must exist (else `IllFormed`), the argument count must match (else UB
"number of arguments does not agree"), every per-slot ABI must match (else UB
"argument ABI does not agree"); then the arguments are evaluated and bound.
`mk` receives the callee name, the callee, and the argument values. -/
def callCommon (p : MProgram) (f : MFunction) (fr : Frame) (out : List String)
    (callee : MExpr) (arguments : List (MExpr × ArgAbi))
    (mk : Nat → MFunction → List Value → StepRes) : StepRes :=
  match evalExpr f fr callee with
  | .error m => .done (.Ub m) out
  | .ok (.fn fname) =>
    match lookupFn p fname with
    | none => .done .IllFormed out
    | some g =>
      if arguments.length ≠ g.args.length then .done (.Ub ubNumArgsMsg) out
      else if ¬ ((arguments.zip g.args).all (fun x => x.1.2 = x.2.2)) then
        .done (.Ub ubArgAbiMsg) out
      else
        match evalArgs f fr arguments with
        | .error m => .done (.Ub m) out
        | .ok vals => mk fname g vals
  | .ok _ => .done (.Ub "call through a non-function value") out

/-- Execute the `Return` terminator (spec §4.2): pop the frame; if it was the
last one the thread terminates and the machine stops; otherwise resume the
parent at the popped frame's inherited continuation, writing the return
value into the recorded return place if one was declared. -/
def retStep (f : MFunction) (fr : Frame) (rest : List Frame) (out : List String) :
    StepRes :=
  match rest with
  | [] => .done .MachineStop out
  | parent :: rest' =>
    match fr.cont with
    | none => .done (.Ub "return without a recorded continuation") out
    | some c =>
      match c.nextBlock with
      | none => .done (.Ub "return to a caller without a next block") out
      | some nb =>
        match c.retSlot with
        | none => .next ⟨{ parent with block := nb, stmtIdx := 0 } :: rest', out⟩
        | some (.loc pl) =>
          match f.ret with
          | none => .done (.Ub "return value expected but callee declares none") out
          | some (rl, _) =>
            match readLocal f fr rl with
            | .error m => .done (.Ub m) out
            | .ok v =>
              match lookupLocal parent pl with
              | none => .done (.Ub "write to a local that is not storage-live") out
              | some _ =>
                .next ⟨{ parent with locals := setLocal parent.locals pl (.val v),
                                     block := nb, stmtIdx := 0 } :: rest', out⟩

/-- Execute an intrinsic call (spec §4.3): `Exit` stops the machine cleanly;
`PrintStdout` appends the formatted values to the output stream and continues
at the next block. -/
def intrinsicStep (f : MFunction) (fr : Frame) (rest : List Frame) (out : List String)
    (i : MIntrinsic) (arguments : List MExpr) (nextBlock : Option Nat) : StepRes :=
  match i with
  | .exit => .done .MachineStop out
  | .printStdout =>
    match evalArgs f fr (arguments.map (fun e => (e, ArgAbi.register))) with
    | .error m => .done (.Ub m) out
    | .ok vals =>
      match nextBlock with
      | none => .done (.Ub "intrinsic call without a next block") out
      | some nb =>
        .next ⟨{ fr with block := nb, stmtIdx := 0 } :: rest, out ++ vals.map fmtVal⟩

/-- Execute the current terminator in the top frame (spec §4.2). -/
def termStep (p : MProgram) (f : MFunction) (fr : Frame) (rest : List Frame)
    (out : List String) : MTerm → StepRes
  | .goto bb => .next ⟨{ fr with block := bb, stmtIdx := 0 } :: rest, out⟩
  | .ite c tb eb =>
    match evalExpr f fr c with
    | .error m => .done (.Ub m) out
    | .ok (.bool b) =>
      .next ⟨{ fr with block := if b then tb else eb, stmtIdx := 0 } :: rest, out⟩
    | .ok _ => .done (.Ub "if on a non-boolean value") out
  | .unreachable => .done (.Ub "reached unreachable code") out
  | .ret => retStep f fr rest out
  | .call callee arguments retSlot nextBlock =>
    callCommon p f fr out callee arguments (fun fname g vals =>
      .next ⟨mkFrame fname g vals (some ⟨retSlot.map Prod.fst, nextBlock⟩) :: fr :: rest, out⟩)
  | .become callee arguments =>
    callCommon p f fr out callee arguments (fun fname g vals =>
      .next ⟨mkFrame fname g vals fr.cont :: rest, out⟩)
  | .callIntrinsic i arguments _retSlot nextBlock =>
    intrinsicStep f fr rest out i arguments nextBlock

/-- One machine step (spec §4.2): execute the next statement of the top
frame, or its block's terminator once the statements are exhausted. -/
def step (p : MProgram) (s : MState) : StepRes :=
  match s.stack with
  | [] => .done .MachineStop s.out
  | fr :: rest =>
    match lookupFn p fr.fnName with
    | none => .done .IllFormed s.out
    | some f =>
      match lookupBlock f fr.block with
      | none => .done .IllFormed s.out
      | some blk =>
        match blk.statements.get? fr.stmtIdx with
        | some st => stmtStep f fr rest s.out st
        | none => termStep p f fr rest s.out blk.terminator

/-- The terminator the machine is about to execute in state `s`, if the top
frame's statement cursor is past the last statement. -/
def atTerminator (p : MProgram) (s : MState) : Option MTerm :=
  match s.stack with
  | [] => none
  | fr :: _ =>
    match lookupFn p fr.fnName with
    | none => none
    | some f =>
      match lookupBlock f fr.block with
      | none => none
      | some blk =>
        match blk.statements.get? fr.stmtIdx with
        | some _ => none
        | none => some blk.terminator

/-- The statement the machine is about to execute in state `s`, if any. -/
def atStatement (p : MProgram) (s : MState) : Option MStmt :=
  match s.stack with
  | [] => none
  | fr :: _ =>
    match lookupFn p fr.fnName with
    | none => none
    | some f =>
      match lookupBlock f fr.block with
      | none => none
      | some blk => blk.statements.get? fr.stmtIdx

/-! ### Static well-formedness (spec §4.2, §7)

Structural violations are reported as `IllFormed`, never as UB: every
function-pointer constant occurring anywhere in the program must name an
existing function, and the start function must exist. -/

/-- Does every function-pointer constant inside the expression name an
existing function? -/
def exprOk (p : MProgram) : MExpr → Bool
  | .fnPtr f => (lookupFn p f).isSome
  | .constInt _ _ => true
  | .constBool _ => true
  | .load _ => true
  | .add _ a b => exprOk p a && exprOk p b
  | .sub _ a b => exprOk p a && exprOk p b
  | .eq a b => exprOk p a && exprOk p b

/-- Well-formedness of a statement. -/
def stmtOk (p : MProgram) : MStmt → Bool
  | .assign _ src => exprOk p src
  | .storageLive _ => true
  | .storageDead _ => true

/-- Well-formedness of a terminator. -/
def termOk (p : MProgram) : MTerm → Bool
  | .goto _ => true
  | .ite c _ _ => exprOk p c
  | .unreachable => true
  | .ret => true
  | .call callee arguments _ _ =>
    exprOk p callee && arguments.all (fun a => exprOk p a.1)
  | .become callee arguments =>
    exprOk p callee && arguments.all (fun a => exprOk p a.1)
  | .callIntrinsic _ arguments _ _ => arguments.all (exprOk p)

/-- Static well-formedness of a program (spec §4.2: checked ahead of
execution; violations are `IllFormed`). -/
def wf (p : MProgram) : Bool :=
  (lookupFn p p.start).isSome &&
  p.functions.all (fun x =>
    x.2.blocks.all (fun b =>
      b.2.statements.all (stmtOk p) && termOk p b.2.terminator))

/-- The initial state: one frame for the start function with no live locals
(the start function of the tested programs takes no arguments). -/
def initState (p : MProgram) : Option MState :=
  (lookupFn p p.start).map (fun f => ⟨[⟨p.start, [], f.start, 0, none⟩], []⟩)

/-- Iterate the machine for at most `fuel` steps; `none` means the fuel ran
out before the machine produced an outcome. -/
def iterate (p : MProgram) : Nat → MState → Option (TermInfo × List String)
  | 0, _ => none
  | fuel + 1, s =>
    match step p s with
    | .done t out => some (t, out)
    | .next s' => iterate p fuel s'

/-- Run the program (the core's `run(Program) -> Outcome`, spec §6): a
program failing the static well-formedness check is `IllFormed` without
taking a step; otherwise the machine is stepped to termination. -/
def runOut (p : MProgram) (fuel : Nat) : Option (TermInfo × List String) :=
  if wf p then
    match initState p with
    | some s => iterate p fuel s
    | none => some (.IllFormed, [])
  else some (.IllFormed, [])

/-- The run's outcome alone. -/
def run (p : MProgram) (fuel : Nat) : Option TermInfo :=
  (runOut p fuel).map Prod.fst

/-- The printed standard output of a successful (`MachineStop`) run, the
test harness's `get_stdout`. -/
def getStdout (p : MProgram) (fuel : Nat) : Option (List String) :=
  match runOut p fuel with
  | some (.MachineStop, out) => some out
  | _ => none

/-- `stepsTo p n s = some s'` when `n` machine steps starting at `s` reach
`s'` without terminating. -/
def stepsTo (p : MProgram) : Nat → MState → Option MState
  | 0, s => some s
  | n + 1, s =>
    match step p s with
    | .next s' => stepsTo p n s'
    | .done _ _ => none

/-- The state reached after `n` steps from the initial state. -/
def reach (p : MProgram) (n : Nat) : Option MState :=
  match initState p with
  | some s => stepsTo p n s
  | none => none

/-! ### The minitest programs (`src/tooling/minitest/src/ub/tailcall.rs`,
`src/tooling/minitest/src/ub/uninit_read.rs`), built with the same builders
(`function(Ret, argc, locals, blocks)` names locals `0, 1, …`; with `Ret::Yes`
local 0 is the return local and locals `1 ..= argc` are the arguments, with
`Ret::No` locals `0 ..< argc` are the arguments; all builder ABIs are
`Register`). -/

/-- The `exit()` block terminator of the builders. -/
def exitTerm : MTerm := .callIntrinsic .exit [] none none

/-- The `diverging` helper function of `tailcall.rs`: one `i32` argument, no
return, a single block that exits. -/
def divergingFn : MFunction :=
  { args := [(0, .register)]
    ret := none
    locals := [(0, i32PTy)]
    blocks := [(0, ⟨[], exitTerm⟩)]
    start := 0 }

/-- The `become_success` test program: `f0` tail-calls `f1 = diverging` with
one `Register` `i32` argument; `f1` exits. -/
def becomeSuccessProg : MProgram :=
  { functions :=
      [ (0, { args := [], ret := none, locals := [],
              blocks := [(0, ⟨[], .become (.fnPtr 1)
                [(.constInt ⟨true, 4⟩ 7, .register)]⟩)], start := 0 })
      , (1, divergingFn) ]
    start := 0 }

/-- The `become_non_exist` test program: `f0` tail-calls `f1`, but the
program contains no `f1`. -/
def becomeNonExistProg : MProgram :=
  { functions :=
      [ (0, { args := [], ret := none, locals := [],
              blocks := [(0, ⟨[], .become (.fnPtr 1) []⟩)], start := 0 }) ]
    start := 0 }

/-- The `become_arg_count` test program: `f0` tail-calls `diverging` (which
declares one argument) with two arguments. -/
def becomeArgCountProg : MProgram :=
  { functions :=
      [ (0, { args := [], ret := none, locals := [(0, unitPTy)],
              blocks := [(0, ⟨[.storageLive 0], .become (.fnPtr 1)
                [(.constInt ⟨true, 4⟩ 7, .register),
                 (.constInt ⟨true, 4⟩ 7, .register)]⟩)], start := 0 })
      , (1, divergingFn) ]
    start := 0 }

/-- The `become_arg_abi` test program: `f0` tail-calls `diverging` passing
its single argument as `Stack(size(4), align(4))` while the callee declares
`Register`. -/
def becomeArgAbiProg : MProgram :=
  { functions :=
      [ (0, { args := [], ret := none, locals := [],
              blocks := [(0, ⟨[], .become (.fnPtr 1)
                [(.constInt ⟨true, 4⟩ 7, .stack 4 4)]⟩)], start := 0 })
      , (1, divergingFn) ]
    start := 0 }

/-- The `main(n)` function of the `become_fib` test: calls `f1 =
fib(n, 0, 1)`, prints the returned `i32`, exits. -/
def fibMainFn (n : Nat) : MFunction :=
  { args := []
    ret := none
    locals := [(0, i32PTy)]
    blocks :=
      [ (0, ⟨[.storageLive 0], .call (.fnPtr 1)
          [(.constInt ⟨false, 8⟩ n, .register),
           (.constInt ⟨true, 4⟩ 0, .register),
           (.constInt ⟨true, 4⟩ 1, .register)]
          (some (.loc 0, .register)) (some 1)⟩)
      , (1, ⟨[], .callIntrinsic .printStdout [.load (.loc 0)] none (some 2)⟩)
      , (2, ⟨[], exitTerm⟩) ]
    start := 0 }

/-- The `fib` function of the `become_fib` test, recursing via `Become`:
locals `_1 : usize` (n), `_2 : i32` (a), `_3 : i32` (b), return local
`_0 : i32`; if `n = 0` return `b`, else `n -= 1; a += b;` and tail-call
`fib(n, b, a)` (that is, `fib(n-1, b, a+b)`). -/
def fibBecomeFn : MFunction :=
  { args := [(1, .register), (2, .register), (3, .register)]
    ret := some (0, .register)
    locals := [(0, i32PTy), (1, usizePTy), (2, i32PTy), (3, i32PTy)]
    blocks :=
      [ (0, ⟨[], .ite (.eq (.load (.loc 1)) (.constInt ⟨false, 8⟩ 0)) 1 2⟩)
      , (1, ⟨[.assign (.loc 0) (.load (.loc 3))], .ret⟩)
      , (2, ⟨[ .assign (.loc 1) (.sub ⟨false, 8⟩ (.load (.loc 1)) (.constInt ⟨false, 8⟩ 1))
             , .assign (.loc 2) (.add ⟨true, 4⟩ (.load (.loc 2)) (.load (.loc 3)))]
           , .become (.fnPtr 1)
               [(.load (.loc 1), .register),
                (.load (.loc 3), .register),
                (.load (.loc 2), .register)]⟩) ]
    start := 0 }

/-- The same fibonacci computation recursing via ordinary `Call` (the spec's
"ordinary `Call` recursion" variant of §8): the recursive result is written
into the return local and the function then returns normally. -/
def fibCallFn : MFunction :=
  { args := [(1, .register), (2, .register), (3, .register)]
    ret := some (0, .register)
    locals := [(0, i32PTy), (1, usizePTy), (2, i32PTy), (3, i32PTy)]
    blocks :=
      [ (0, ⟨[], .ite (.eq (.load (.loc 1)) (.constInt ⟨false, 8⟩ 0)) 1 2⟩)
      , (1, ⟨[.assign (.loc 0) (.load (.loc 3))], .ret⟩)
      , (2, ⟨[ .assign (.loc 1) (.sub ⟨false, 8⟩ (.load (.loc 1)) (.constInt ⟨false, 8⟩ 1))
             , .assign (.loc 2) (.add ⟨true, 4⟩ (.load (.loc 2)) (.load (.loc 3)))]
           , .call (.fnPtr 1)
               [(.load (.loc 1), .register),
                (.load (.loc 3), .register),
                (.load (.loc 2), .register)]
               (some (.loc 0, .register)) (some 3)⟩)
      , (3, ⟨[], .ret⟩) ]
    start := 0 }

/-- The `become_fib` test program with tail-recursive `fib`. -/
def fibBecomeProg (n : Nat) : MProgram :=
  { functions := [(0, fibMainFn n), (1, fibBecomeFn)], start := 0 }

/-- The `Call`-recursive variant of the fibonacci program. -/
def fibCallProg (n : Nat) : MProgram :=
  { functions := [(0, fibMainFn n), (1, fibCallFn)], start := 0 }

/-- The reference recurrence of the `become_fib` test:
`fib(n, a, b) = b if n = 0 else fib(n-1, b, a+b)` (`equiv_fib`). -/
def equiv_fib : Nat → Int → Int → Int
  | 0, _, b => b
  | n + 1, a, b => equiv_fib n b (a + b)

/-- The `uninit_read` test program (`small_program`): two `bool` locals, both
storage-live, never assigned; `_0 = load(_1);` then exit. -/
def uninitReadProg : MProgram :=
  { functions :=
      [ (0, { args := [], ret := none,
              locals := [(0, boolPTy), (1, boolPTy)],
              blocks := [(0, ⟨[.storageLive 0, .storageLive 1,
                               .assign (.loc 0) (.load (.loc 1))], exitTerm⟩)],
              start := 0 }) ]
    start := 0 }

/-- A well-formed program that loops forever: a single block that jumps to
itself. -/
def loopProg : MProgram :=
  { functions :=
      [ (0, { args := [], ret := none, locals := [],
              blocks := [(0, ⟨[], .goto 0⟩)], start := 0 }) ]
    start := 0 }

/-! ### The driver's outcome match (`src/tooling/minimize/src/main.rs`) -/

/-- The driver's match on the run's termination info: `IllFormed` and `Ub`
print to standard error, `MachineStop` is a silent exit, and every other
variant falls into the catch-all branch. -/
def driverHitsCatchAll : TermInfo → Bool
  | .IllFormed => false
  | .MachineStop => false
  | .Ub _ => false
  | _ => true

/-- The message, if any, the driver prints to standard error for an outcome
(the named branches of the match in `main.rs`). -/
def driverStderr : TermInfo → Option String
  | .IllFormed => some "ERR: program not well-formed."
  | .MachineStop => none
  | .Ub err => some ("UB: " ++ err)
  | _ => none

/-- `containsStr s sub` states that `sub` occurs contiguously in `s`. -/
def containsStr (s sub : String) : Prop := ∃ a b, s = a ++ sub ++ b

/-- An execution fragment in which no step sits at a `Call` terminator: `n`
consecutive continuing steps, none of which is an ordinary call (tail-call
chains, with their intermediate statement/branch steps, are of this
shape). -/
def noCallChain (p : MProgram) : Nat → MState → MState → Prop
  | 0, s, s' => s = s'
  | n + 1, s, s' =>
    (∀ c a r nb, atTerminator p s ≠ some (.call c a r nb)) ∧
      ∃ m, step p s = .next m ∧ noCallChain p n m s'

/-- A step result is deadlock-free when it is not `done Deadlock`. -/
def resNoDeadlock : StepRes → Prop
  | .done .Deadlock _ => False
  | _ => True

/-- The initial state of `becomeSuccessProg` (and of the other two-function
tailcall programs whose start function is `f0`). -/
def bsState0 : MState := ⟨[⟨0, [], 0, 0, none⟩], []⟩

/-- The state of `becomeSuccessProg` after its `Become` step: the `diverging`
frame has replaced the start frame. -/
def bsState1 : MState := ⟨[⟨1, [(0, .val (.int 7))], 0, 0, none⟩], []⟩

/-- The state of `becomeArgCountProg` after its `storage_live` step, about to
execute the mis-counted `Become`. -/
def acState1 : MState := ⟨[⟨0, [(0, .uninit)], 0, 1, none⟩], []⟩

/-- The state of `uninitReadProg` after its two `storage_live` steps, about
to execute `_0 = load(_1)`. -/
def urState2 : MState := ⟨[⟨0, [(0, .uninit), (1, .uninit)], 0, 2, none⟩], []⟩

/-- The single (self-looping) state of `loopProg`. -/
def loopState : MState := ⟨[⟨0, [], 0, 0, none⟩], []⟩

/-! ### The alignment rule (spec §4.1), modelled from the spec

The place evaluator is not part of the repository; the rule it must
implement is modelled from §4.1 and the §9 design note: an evaluated place
carries the pointer value that was last dereferenced or re-based (`root`),
the accumulated projection offset from it, and the alignment requirement
imposed on `root`.  Dereferencing at a place type imposes that type's
alignment on the pointer value; a field projection moves the offset but
keeps the requirement on the dereferenced pointer; an index projection
establishes a new, independently-checked pointer whose requirement is only
the element type's alignment; address-of forgets how the address was
obtained; the requirement is checked at the access. -/

/-- Modelled from the spec: an evaluated place address (§9 design note: the
"accessed-as" information is carried on the address value itself). -/
structure PlaceAddr where
  root : Nat
  off : Nat
  req : Nat
deriving DecidableEq, Repr

/-- Modelled from the spec: dereference a pointer value at a place type —
the pointer value becomes the checked root, bearing the type's alignment
requirement. -/
def derefPlace (ptrVal : Nat) (pty : PlaceType) : PlaceAddr :=
  ⟨ptrVal, 0, pty.align⟩

/-- Modelled from the spec: project to a field at the given byte offset —
the requirement stays on the dereferenced root (accessing a field through a
struct-typed pointer requires the struct's full alignment). -/
def fieldPlace (pa : PlaceAddr) (offset : Nat) : PlaceAddr :=
  ⟨pa.root, pa.off + offset, pa.req⟩

/-- Modelled from the spec: index into an array — indexing establishes a
new, independently-checked pointer whose required alignment is only that of
the element type actually accessed. -/
def indexPlace (pa : PlaceAddr) (i : Nat) (elemSize : Nat) (elemAlign : Nat) :
    PlaceAddr :=
  ⟨pa.root + pa.off + i * elemSize, 0, elemAlign⟩

/-- Modelled from the spec: address-of never dereferences and forgets how
the address was obtained — only the numeric address remains. -/
def addrOfPlace (pa : PlaceAddr) : Nat := pa.root + pa.off

/-- Modelled from the spec: the alignment check performed at the point of
access — the checked root must satisfy the carried requirement. -/
def accessAligned (pa : PlaceAddr) : Prop := pa.root % pa.req = 0

/-- `u8`. -/
def u8Ty : Ty := .int ⟨false, 1⟩

/-- `u16`. -/
def u16Ty : Ty := .int ⟨false, 2⟩

/-- The struct of the `fields_of_aligned` / `fields_of_misaligned` tests:
`#[repr(C, align(4))] struct S { a: u8, b: u8, c: u8, d: u8,
array1: [u16; 7], array2: [u16; 7] }` — byte fields at offsets 0..3, the
arrays at offsets 4 and 18, size 32, alignment 4. -/
def structS_Ty : Ty :=
  .tuple (.cons 0 u8Ty (.cons 1 u8Ty (.cons 2 u8Ty (.cons 3 u8Ty
    (.cons 4 (.array u16Ty 7) (.cons 18 (.array u16Ty 7) .nil)))))) 32 4

/-- The place type of `S`. -/
def structS_PTy : PlaceType := ⟨structS_Ty, 4⟩

/-- The place type of `u8`. -/
def u8PTy : PlaceType := ⟨u8Ty, 1⟩

/-- The place type of `u16`. -/
def u16PTy : PlaceType := ⟨u16Ty, 2⟩

/-! ## The pretty-printer (`src/tooling/miniutil/src/fmt/function.rs` and
`src/tooling/miniutil/src/fmt/expr.rs`)

The expression/statement/terminator data model below mirrors the shapes the
formatter matches on.  Name identifiers (`FnName`, `LocalName`, `BbName`,
`GlobalName`) are internal naturals (`Name::from_internal` /
`get_internal`).  The helpers the formatter calls that live outside the two
files (`fmt_type`, `fmt_ptype`, `fmt_int_type`, `fmt_ptr_type`,
`fmt_relocation`, the `CompType` index lookup) are modelled from the spec,
as marked.  The `Constant::Variant` and exotic-`AddrOf` arms panic in the
source ("enums are unsupported!"); the embedding covers the supported
fragment and omits those constructors. -/

/-- Unary operators (`UnOpInt`). -/
inductive UnOpInt where
  | neg
  | cast
deriving DecidableEq, Repr

/-- Unary operators (`UnOp`). -/
inductive UnOp where
  | int (op : UnOpInt) (int_ty : IntType)
  | ptr2ptr (ptr_ty : PtrType)
  | ptr2int
  | int2ptr (ptr_ty : PtrType)
deriving DecidableEq, Repr

/-- Binary integer operators (`BinOpInt`). -/
inductive BinOpInt where
  | add
  | sub
  | mul
  | div
  | rem
deriving DecidableEq, Repr

/-- Integer relational operators (`IntRel`). -/
inductive IntRel where
  | lt
  | le
  | gt
  | ge
  | eq
  | ne
deriving DecidableEq, Repr

/-- Binary operators (`BinOp`). -/
inductive BinOp where
  | int (op : BinOpInt) (int_ty : IntType)
  | intRel (rel : IntRel)
  | ptrOffset (inbounds : Bool)
deriving DecidableEq, Repr

/-- Constants (`Constant`); a global pointer carries its relocation (global
name and offset). -/
inductive Constant where
  | int (i : Int)
  | bool (b : Bool)
  | globalPointer (g : Nat) (offset : Int)
  | fnPointer (fn_name : Nat)
deriving DecidableEq, Repr

mutual
/-- Place expressions (`PlaceExpr`): a local (`Local` in the source; `local`
is reserved in Lean), a typed dereference, a field projection, an index
projection. -/
inductive PlaceExpr where
  | localVar (l : Nat)
  | deref (operand : ValueExpr) (ptype : PlaceType)
  | field (root : PlaceExpr) (fieldIdx : Nat)
  | index (root : PlaceExpr) (indexExpr : ValueExpr)
deriving DecidableEq, Repr
/-- Value expressions (`ValueExpr`). -/
inductive ValueExpr where
  | constant (c : Constant) (ty : Ty)
  | tuple (l : ValueExprList) (t : Ty)
  | union (fieldIdx : Nat) (expr : ValueExpr) (union_ty : Ty)
  | load (destructive : Bool) (source : PlaceExpr)
  | addrOf (target : PlaceExpr) (ptr_ty : PtrType)
  | unOp (operator : UnOp) (operand : ValueExpr)
  | binOp (operator : BinOp) (left : ValueExpr) (right : ValueExpr)
deriving DecidableEq, Repr
/-- A list of value expressions (the `List<ValueExpr>` of a tuple literal). -/
inductive ValueExprList where
  | nil
  | cons (head : ValueExpr) (tail : ValueExprList)
deriving DecidableEq, Repr
end

/-- Statements (`Statement`): assign, finalize, storage live/dead. -/
inductive Statement where
  | assign (destination : PlaceExpr) (source : ValueExpr)
  | finalize (place : PlaceExpr) (fn_entry : Bool)
  | storageLive (l : Nat)
  | storageDead (l : Nat)
deriving DecidableEq, Repr

/-- Lock intrinsics (`LockIntrinsic`). -/
inductive LockIntrinsic where
  | acquire
  | create
  | release
deriving DecidableEq, Repr

/-- Intrinsics (`Intrinsic`). -/
inductive Intrinsic where
  | exit
  | printStdout
  | printStderr
  | allocate
  | deallocate
  | spawn
  | join
  | atomicWrite
  | atomicRead
  | compareExchange
  | lock (li : LockIntrinsic)
deriving DecidableEq, Repr

/-- Terminators (`Terminator`). -/
inductive Terminator where
  | goto (bb : Nat)
  | ite (condition : ValueExpr) (then_block : Nat) (else_block : Nat)
  | unreachable
  | call (callee : ValueExpr) (arguments : List (ValueExpr × ArgAbi))
      (ret : Option (PlaceExpr × ArgAbi)) (next_block : Option Nat)
  | become (callee : ValueExpr) (arguments : List (ValueExpr × ArgAbi))
  | ret
  | callIntrinsic (intrinsic : Intrinsic) (arguments : List ValueExpr)
      (ret : Option PlaceExpr) (next_block : Option Nat)
deriving DecidableEq, Repr

/-- A basic block (`BasicBlock`). -/
structure BasicBlock where
  statements : List Statement
  terminator : Terminator
deriving DecidableEq, Repr

/-- A function (`Function`): its maps (argument list, locals, blocks) are
association lists keyed by the internal name. -/
structure Function where
  args : List (Nat × ArgAbi)
  ret : Option (Nat × ArgAbi)
  locals : List (Nat × PlaceType)
  blocks : List (Nat × BasicBlock)
  start : Nat
deriving DecidableEq, Repr

/-- A program (`Program`). -/
structure Program where
  functions : List (Nat × Function)
  start : Nat
deriving DecidableEq, Repr

/-- A formatted expression (`FmtExpr` in `fmt/expr.rs`): atomic strings never
need parenthesising, non-atomic ones do in ambiguous contexts. -/
inductive FmtExpr where
  | nonAtomic (s : String)
  | atomic (s : String)
deriving DecidableEq, Repr

/-- `FmtExpr::to_string`: the contents as-is. -/
def FmtExpr.to_string : FmtExpr → String
  | .nonAtomic s => s
  | .atomic s => s

/-- `FmtExpr::to_atomic_string`: wrap non-atomic expressions in parens. -/
def FmtExpr.to_atomic_string : FmtExpr → String
  | .nonAtomic s => "(" ++ s ++ ")"
  | .atomic s => s

/-- A composite type as tracked by the formatter (`CompType` wraps a
composite `Type`). -/
abbrev CompType := Ty

/-- The index of a composite type in the accumulator, if present. -/
def comptypePos (t : CompType) : List CompType → Option Nat
  | [] => none
  | c :: rest => if c = t then some 0 else (comptypePos t rest).map (· + 1)

/-- Modelled from the spec: the comptype accumulator lookup the formatter
uses (`fmt_type` hands out `T<i>` names) — return the index of the composite
type, appending it only if it is not yet present, so each used composite
type is added exactly once. -/
def get_comptype_index (t : CompType) (comptypes : List CompType) :
    Nat × List CompType :=
  match comptypePos t comptypes with
  | some i => (i, comptypes)
  | none => (comptypes.length, comptypes ++ [t])

/-- Modelled from the spec: render an integer type (`u16`, `i32`, …). -/
def fmt_int_type (it : IntType) : String :=
  (if it.signed then "i" else "u") ++ toString (8 * it.size)

/-- Modelled from the spec: render a pointer type (no comptypes are
collected for pointers — `fmt_ptr_type` takes no accumulator in the
source). -/
def fmt_ptr_type : PtrType → FmtExpr
  | .raw => .atomic "*raw"
  | .ref .mutable => .atomic "&mut"
  | .ref .immutable => .atomic "&"

/-- Modelled from the spec: render a type; composite types print as their
accumulator index (`T<i>`), arrays recurse into the element type, scalars
and pointers collect nothing. -/
def fmt_type (t : Ty) (comptypes : List CompType) : FmtExpr × List CompType :=
  match t with
  | .int it => (.atomic (fmt_int_type it), comptypes)
  | .bool => (.atomic "bool", comptypes)
  | .ptr pt => (fmt_ptr_type pt, comptypes)
  | .tuple f s a =>
    let r := get_comptype_index (.tuple f s a) comptypes
    (.atomic ("T" ++ toString r.1), r.2)
  | .array elem count =>
    let r := fmt_type elem comptypes
    (.atomic ("[" ++ r.1.to_string ++ "; " ++ toString count ++ "]"), r.2)
  | .union f s a =>
    let r := get_comptype_index (.union f s a) comptypes
    (.atomic ("T" ++ toString r.1), r.2)

/-- Modelled from the spec: render a place type (type plus alignment). -/
def fmt_ptype (pty : PlaceType) (comptypes : List CompType) :
    FmtExpr × List CompType :=
  let r := fmt_type pty.ty comptypes
  (.atomic (r.1.to_string ++ " @ align(" ++ toString pty.align ++ ")"), r.2)

/-- `fmt_local_name`: `_<id>`. -/
def fmt_local_name (l : Nat) : String := "_" ++ toString l

/-- `fmt_global_name`: `global(<id>)`. -/
def fmt_global_name (g : Nat) : String := "global(" ++ toString g ++ ")"

/-- `fmt_fn_name`: `f<id>`. -/
def fmt_fn_name (fn_name : Nat) : String := "f" ++ toString fn_name

/-- `fmt_bb_name`: `bb<id>`. -/
def fmt_bb_name (bb : Nat) : String := "bb" ++ toString bb

/-- Modelled from the spec: render a global-pointer relocation. -/
def fmt_relocation (g : Nat) (offset : Int) : FmtExpr :=
  if offset = 0 then .atomic (fmt_global_name g)
  else .nonAtomic (fmt_global_name g ++ " + " ++ toString offset)

/-- `fmt_constant` (no comptypes are collected for constants). -/
def fmt_constant : Constant → FmtExpr
  | .int i => .atomic (toString i)
  | .bool b => .atomic (toString b)
  | .globalPointer g offset => fmt_relocation g offset
  | .fnPointer fn => .atomic (fmt_fn_name fn)

mutual
/-- `fmt_place_expr` (from `fmt/expr.rs`), threading the comptype
accumulator the Rust code mutates in place. -/
def fmt_place_expr : PlaceExpr → List CompType → FmtExpr × List CompType
  | .localVar l, comptypes => (.atomic (fmt_local_name l), comptypes)
  | .deref operand ptype, comptypes =>
    let r1 := fmt_ptype ptype comptypes
    let r2 := fmt_value_expr operand r1.2
    (.atomic ("deref<" ++ r1.1.to_string ++ ">(" ++ r2.1.to_string ++ ")"), r2.2)
  | .field root fieldIdx, comptypes =>
    let r1 := fmt_place_expr root comptypes
    (.atomic (r1.1.to_atomic_string ++ "." ++ toString fieldIdx), r1.2)
  | .index root indexExpr, comptypes =>
    let r1 := fmt_place_expr root comptypes
    let r2 := fmt_value_expr indexExpr r1.2
    (.atomic (r1.1.to_atomic_string ++ "[" ++ r2.1.to_string ++ "]"), r2.2)
/-- `fmt_value_expr` (from `fmt/expr.rs`). -/
def fmt_value_expr : ValueExpr → List CompType → FmtExpr × List CompType
  | .constant c _ty, comptypes => (fmt_constant c, comptypes)
  | .tuple l t, comptypes =>
    let r1 := fmt_value_expr_list l comptypes
    (match t with
     | .array _ _ => FmtExpr.atomic ("[" ++ String.intercalate ", " r1.1 ++ "]")
     | _ => FmtExpr.atomic ("(" ++ String.intercalate ", " r1.1 ++ ")"), r1.2)
  | .union fieldIdx expr union_ty, comptypes =>
    let r1 := fmt_type union_ty comptypes
    let r2 := fmt_value_expr expr r1.2
    (.nonAtomic (r1.1.to_string ++ " \x7b field" ++ toString fieldIdx ++ ": " ++
      r2.1.to_string ++ " \x7d"), r2.2)
  | .load destructive source, comptypes =>
    let r1 := fmt_place_expr source comptypes
    (.atomic ((if destructive then "move" else "load") ++
      "(" ++ r1.1.to_string ++ ")"), r1.2)
  | .addrOf target .raw, comptypes =>
    let r1 := fmt_place_expr target comptypes
    (.nonAtomic ("&raw " ++ r1.1.to_atomic_string), r1.2)
  | .addrOf target (.ref mutbl), comptypes =>
    let r1 := fmt_place_expr target comptypes
    (.nonAtomic ("&" ++
      (match mutbl with | .mutable => "mut " | .immutable => "") ++
      r1.1.to_atomic_string), r1.2)
  | .unOp operator operand, comptypes =>
    let r1 := fmt_value_expr operand comptypes
    (match operator with
     | .int .neg int_ty =>
       FmtExpr.nonAtomic ("-<" ++ fmt_int_type int_ty ++ ">(" ++
         r1.1.to_string ++ ")")
     | .int .cast int_ty =>
       FmtExpr.atomic ("int2int<" ++ fmt_int_type int_ty ++ ">(" ++
         r1.1.to_string ++ ")")
     | .ptr2ptr ptr_ty =>
       FmtExpr.atomic ("ptr2ptr<" ++ (fmt_ptr_type ptr_ty).to_string ++ ">(" ++
         r1.1.to_string ++ ")")
     | .ptr2int => FmtExpr.atomic ("ptr2int(" ++ r1.1.to_string ++ ")")
     | .int2ptr ptr_ty =>
       FmtExpr.atomic ("int2ptr<" ++ (fmt_ptr_type ptr_ty).to_string ++ ">(" ++
         r1.1.to_string ++ ")"), r1.2)
  | .binOp (.int op int_ty) left right, comptypes =>
    let r1 := fmt_value_expr left comptypes
    let r2 := fmt_value_expr right r1.2
    (.nonAtomic (r1.1.to_atomic_string ++ " " ++
      ((match op with
        | .add => "+"
        | .sub => "-"
        | .mul => "*"
        | .div => "/"
        | .rem => "%") ++ "<" ++ fmt_int_type int_ty ++ ">") ++ " " ++
      r2.1.to_atomic_string), r2.2)
  | .binOp (.intRel rel) left right, comptypes =>
    let r1 := fmt_value_expr left comptypes
    let r2 := fmt_value_expr right r1.2
    (.nonAtomic (r1.1.to_atomic_string ++ " " ++
      (match rel with
       | .lt => "<"
       | .le => "<="
       | .gt => ">"
       | .ge => ">="
       | .eq => "=="
       | .ne => "!=") ++ " " ++ r2.1.to_atomic_string), r2.2)
  | .binOp (.ptrOffset inbounds) left right, comptypes =>
    let r1 := fmt_value_expr left comptypes
    let r2 := fmt_value_expr right r1.2
    (.atomic ((if inbounds then "offset_inbounds" else "offset_wrapping") ++
      "(" ++ r1.1.to_string ++ ", " ++ r2.1.to_string ++ ")"), r2.2)
/-- The element-wise formatting of a tuple literal's expression list
(`l.iter().map(|x| fmt_value_expr(x, comptypes).to_string()).collect()`). -/
def fmt_value_expr_list : ValueExprList → List CompType → List String × List CompType
  | .nil, comptypes => ([], comptypes)
  | .cons v vs, comptypes =>
    let r1 := fmt_value_expr v comptypes
    let r2 := fmt_value_expr_list vs r1.2
    (r1.1.to_string :: r2.1, r2.2)
end

/-- Formatting of a plain argument list, left to right (the `arguments`
maps in `fmt_call` and the `Become` arm). -/
def fmt_value_exprs : List ValueExpr → List CompType → List String × List CompType
  | [], comptypes => ([], comptypes)
  | v :: vs, comptypes =>
    let r1 := fmt_value_expr v comptypes
    let r2 := fmt_value_exprs vs r1.2
    (r1.1.to_string :: r2.1, r2.2)

/-- `fmt_statement` (from `fmt/function.rs`). -/
def fmt_statement (st : Statement) (comptypes : List CompType) :
    String × List CompType :=
  match st with
  | .assign destination source =>
    let r1 := fmt_place_expr destination comptypes
    let r2 := fmt_value_expr source r1.2
    ("    " ++ r1.1.to_string ++ " = " ++ r2.1.to_string ++ ";", r2.2)
  | .finalize place fn_entry =>
    let r1 := fmt_place_expr place comptypes
    ("    finalize(" ++ r1.1.to_string ++ ", " ++ toString fn_entry ++ ");", r1.2)
  | .storageLive l => ("    storage_live(" ++ fmt_local_name l ++ ");", comptypes)
  | .storageDead l => ("    storage_dead(" ++ fmt_local_name l ++ ");", comptypes)

/-- The formatted return place of `fmt_call` (`_` when there is none). -/
def fmt_call_ret : Option PlaceExpr → List CompType → String × List CompType
  | some retPlace, comptypes =>
    let r := fmt_place_expr retPlace comptypes
    (r.1.to_string, r.2)
  | none, comptypes => ("_", comptypes)

/-- `fmt_call` (from `fmt/function.rs`): used both for functions and
intrinsics. -/
def fmt_call (callee : String) (arguments : List ValueExpr)
    (ret : Option PlaceExpr) (next_block : Option Nat)
    (comptypes : List CompType) : String × List CompType :=
  let r1 := fmt_value_exprs arguments comptypes
  let r2 := fmt_call_ret ret r1.2
  let next :=
    match next_block with
    | some nb => " -> " ++ fmt_bb_name nb
    | none => ""
  ("    " ++ r2.1 ++ " = " ++ callee ++ "(" ++ String.intercalate ", " r1.1 ++
    ")" ++ next ++ ";", r2.2)

/-- The intrinsic names of the `CallIntrinsic` arm of `fmt_terminator`. -/
def intrinsic_name : Intrinsic → String
  | .exit => "exit"
  | .printStdout => "print"
  | .printStderr => "eprint"
  | .allocate => "allocate"
  | .deallocate => "deallocate"
  | .spawn => "spawn"
  | .join => "join"
  | .atomicWrite => "atomic-write"
  | .atomicRead => "atomic-read"
  | .compareExchange => "compare-exchange"
  | .lock .acquire => "lock-acquire"
  | .lock .create => "lock-create"
  | .lock .release => "lock-release"

/-- `fmt_terminator` (from `fmt/function.rs`). -/
def fmt_terminator (t : Terminator) (comptypes : List CompType) :
    String × List CompType :=
  match t with
  | .goto bb => ("    goto -> " ++ fmt_bb_name bb ++ ";", comptypes)
  | .ite condition then_block else_block =>
    let r1 := fmt_value_expr condition comptypes
    ("    if " ++ r1.1.to_string ++ " \x7b\n      goto -> " ++
      fmt_bb_name then_block ++ ";\n    \x7d else \x7b\n      goto -> " ++
      fmt_bb_name else_block ++ ";\n    \x7d", r1.2)
  | .unreachable => ("    unreachable;", comptypes)
  | .call callee arguments ret next_block =>
    let r1 := fmt_value_expr callee comptypes
    fmt_call r1.1.to_atomic_string (arguments.map Prod.fst)
      (ret.map Prod.fst) next_block r1.2
  | .become callee arguments =>
    let r1 := fmt_value_expr callee comptypes
    let r2 := fmt_value_exprs (arguments.map Prod.fst) r1.2
    ("    become " ++ r1.1.to_atomic_string ++ "(" ++
      String.intercalate ", " r2.1 ++ ");", r2.2)
  | .ret => ("    return;", comptypes)
  | .callIntrinsic intrinsic arguments ret next_block =>
    fmt_call (intrinsic_name intrinsic) arguments ret next_block comptypes

/-- The statement lines of a block, each followed by a newline. -/
def fmt_statements : List Statement → List CompType → String × List CompType
  | [], comptypes => ("", comptypes)
  | st :: rest, comptypes =>
    let r1 := fmt_statement st comptypes
    let r2 := fmt_statements rest r1.2
    (r1.1 ++ "\n" ++ r2.1, r2.2)

/-- `fmt_bb` (from `fmt/function.rs`): the block header (prefixed with
`start` for the function's start block), its statements, its terminator. -/
def fmt_bb (bb_name : Nat) (bb : BasicBlock) (start : Bool)
    (comptypes : List CompType) : String × List CompType :=
  let head := (if start then "  start bb" else "  bb") ++ toString bb_name ++ ":\n"
  let r1 := fmt_statements bb.statements comptypes
  let r2 := fmt_terminator bb.terminator r1.2
  (head ++ r1.1 ++ r2.1 ++ "\n", r2.2)

/-- Stable insertion of a keyed entry into a key-sorted list (earlier
entries stay in front of later entries with equal keys, as with
`sort_by_key`). -/
def sortInsert {α : Type} (x : Nat × α) : List (Nat × α) → List (Nat × α)
  | [] => [x]
  | y :: rest => if x.1 ≤ y.1 then x :: y :: rest else y :: sortInsert x rest

/-- The `sort_by_key(|(name, _)| name)` of the formatter: a stable sort by
the internal name identifier. -/
def sortByKey {α : Type} : List (Nat × α) → List (Nat × α)
  | [] => []
  | x :: rest => sortInsert x (sortByKey rest)

/-- The local-declaration loop of `fmt_function` over the already-sorted
locals, one `let` line each. -/
def fmt_locals : List (Nat × PlaceType) → List CompType → String × List CompType
  | [], comptypes => ("", comptypes)
  | (l, pty) :: rest, comptypes =>
    let r1 := fmt_ptype pty comptypes
    let r2 := fmt_locals rest r1.2
    ("  let " ++ fmt_local_name l ++ ": " ++ r1.1.to_string ++ ";\n" ++ r2.1, r2.2)

/-- The sorted-blocks loop of `fmt_function`; the start flag of each block
is `f.start == bb_name`. -/
def fmt_bbs (startBb : Nat) : List (Nat × BasicBlock) → List CompType →
    String × List CompType
  | [], comptypes => ("", comptypes)
  | (name, bb) :: rest, comptypes =>
    let r1 := fmt_bb name bb (startBb == name) comptypes
    let r2 := fmt_bbs startBb rest r1.2
    (r1.1 ++ r2.1, r2.2)

/-- `fmt_function` (from `fmt/function.rs`): the signature line (prefixed
with `start` for the program's start function), the locals sorted by name,
the blocks sorted by name, the closing brace. -/
def fmt_function (fn_name : Nat) (f : Function) (start : Bool)
    (comptypes : List CompType) : String × List CompType :=
  let args := String.intercalate ", " (f.args.map (fun x => fmt_local_name x.1))
  let ret_str :=
    match f.ret with
    | some (r, _) => "-> " ++ fmt_local_name r
    | none => "-/>"
  let head := (if start then "start fn " else "fn ") ++ fmt_fn_name fn_name ++
    "(" ++ args ++ ") " ++ ret_str ++ " \x7b\n"
  let r1 := fmt_locals (sortByKey f.locals) comptypes
  let r2 := fmt_bbs f.start (sortByKey f.blocks) r1.2
  (head ++ r1.1 ++ r2.1 ++ "\x7d\n\n", r2.2)

/-- The fold of `fmt_functions` over the name-sorted function list; the
start flag of each function is `prog.start == fn_name`. -/
def fmt_fns (startFn : Nat) : List (Nat × Function) → List CompType →
    String × List CompType
  | [], comptypes => ("", comptypes)
  | (name, f) :: rest, comptypes =>
    let r1 := fmt_function name f (startFn == name) comptypes
    let r2 := fmt_fns startFn rest r1.2
    (r1.1 ++ r2.1, r2.2)

/-- `fmt_functions` (from `fmt/function.rs`): formats all functions of the
program in ascending order of their name; all composite types used within
the program are added to `comptypes` exactly once. -/
def fmt_functions (prog : Program) (comptypes : List CompType) :
    String × List CompType :=
  fmt_fns prog.start (sortByKey prog.functions) comptypes

/-! ### The composite types a program uses

`ctsX x` lists, in traversal order, exactly the composite types the
formatter hands to the comptype-index lookup while formatting `x`. -/

/-- The composite types `fmt_type` looks up: the tuple/union node itself,
or those of an array's element type. -/
def ctsTy : Ty → List CompType
  | .tuple f s a => [.tuple f s a]
  | .union f s a => [.union f s a]
  | .array elem _ => ctsTy elem
  | _ => []

/-- The composite types of a place type. -/
def ctsPTy (pty : PlaceType) : List CompType := ctsTy pty.ty

mutual
/-- The composite types formatted along a place expression. -/
def ctsPlace : PlaceExpr → List CompType
  | .localVar _ => []
  | .deref operand ptype => ctsPTy ptype ++ ctsValue operand
  | .field root _ => ctsPlace root
  | .index root indexExpr => ctsPlace root ++ ctsValue indexExpr
/-- The composite types formatted along a value expression. -/
def ctsValue : ValueExpr → List CompType
  | .constant _ _ => []
  | .tuple l _ => ctsVList l
  | .union _ expr union_ty => ctsTy union_ty ++ ctsValue expr
  | .load _ source => ctsPlace source
  | .addrOf target _ => ctsPlace target
  | .unOp _ operand => ctsValue operand
  | .binOp _ left right => ctsValue left ++ ctsValue right
/-- The composite types formatted along a tuple literal's elements. -/
def ctsVList : ValueExprList → List CompType
  | .nil => []
  | .cons v vs => ctsValue v ++ ctsVList vs
end

/-- The composite types of a plain expression list. -/
def ctsValues : List ValueExpr → List CompType
  | [] => []
  | v :: vs => ctsValue v ++ ctsValues vs

/-- The composite types of a statement. -/
def ctsStmt : Statement → List CompType
  | .assign destination source => ctsPlace destination ++ ctsValue source
  | .finalize place _ => ctsPlace place
  | .storageLive _ => []
  | .storageDead _ => []

/-- The composite types of a call line. -/
def ctsCall (arguments : List ValueExpr) (ret : Option PlaceExpr) :
    List CompType :=
  ctsValues arguments ++ (match ret with | some r => ctsPlace r | none => [])

/-- The composite types of a terminator. -/
def ctsTerm : Terminator → List CompType
  | .goto _ => []
  | .ite condition _ _ => ctsValue condition
  | .unreachable => []
  | .call callee arguments ret _ =>
    ctsValue callee ++ ctsCall (arguments.map Prod.fst) (ret.map Prod.fst)
  | .become callee arguments =>
    ctsValue callee ++ ctsValues (arguments.map Prod.fst)
  | .ret => []
  | .callIntrinsic _ arguments ret _ => ctsCall arguments ret

/-- The composite types of a statement list. -/
def ctsStmts : List Statement → List CompType
  | [] => []
  | st :: rest => ctsStmt st ++ ctsStmts rest

/-- The composite types of a basic block. -/
def ctsBb (bb : BasicBlock) : List CompType :=
  ctsStmts bb.statements ++ ctsTerm bb.terminator

/-- The composite types of a local-declaration list. -/
def ctsLocals : List (Nat × PlaceType) → List CompType
  | [] => []
  | (_, pty) :: rest => ctsPTy pty ++ ctsLocals rest

/-- The composite types of a keyed block list. -/
def ctsBbs : List (Nat × BasicBlock) → List CompType
  | [] => []
  | (_, bb) :: rest => ctsBb bb ++ ctsBbs rest

/-- The composite types used within a function (its locals' types and its
blocks). -/
def ctsFn (f : Function) : List CompType :=
  ctsLocals f.locals ++ ctsBbs f.blocks

/-- The composite types used within a keyed function list. -/
def ctsFns : List (Nat × Function) → List CompType
  | [] => []
  | (_, f) :: rest => ctsFn f ++ ctsFns rest

/-- All composite types used within the program, in declaration order. -/
def usedComptypes (prog : Program) : List CompType := ctsFns prog.functions

/-- One comptype-lookup step of the accumulator (the effect of
`get_comptype_index` on `comptypes`). -/
def addComptype (comptypes : List CompType) (t : CompType) : List CompType :=
  (get_comptype_index t comptypes).2

/-- Folding a whole list of looked-up comptypes into the accumulator. -/
def addAll (comptypes : List CompType) (l : List CompType) : List CompType :=
  l.foldl addComptype comptypes

/-- The composite types of a function in the order the formatter visits
them: the name-sorted locals, then the name-sorted blocks. -/
def ctsFnSorted (f : Function) : List CompType :=
  ctsLocals (sortByKey f.locals) ++ ctsBbs (sortByKey f.blocks)

/-- The composite types of a keyed function list in formatter order. -/
def ctsFnsSorted : List (Nat × Function) → List CompType
  | [] => []
  | (_, f) :: rest => ctsFnSorted f ++ ctsFnsSorted rest

/-- A small program for exercising the formatter: one function with a
unit-typed (empty-tuple) local, whose type is the program's single used
composite type. -/
def fmtDemoProg : Program :=
  { functions :=
      [ (0, { args := [], ret := none,
              locals := [(0, unitPTy)],
              blocks := [(0, ⟨[.storageLive 0], .ret⟩)],
              start := 0 }) ]
    start := 0 }

/-! ### Elementary facts about the run machinery -/

/-- Stepping `n` times and then iterating is iterating with `n` more fuel. -/
theorem iterate_of_stepsTo (p : MProgram) :
    ∀ (n : Nat) (s s' : MState), stepsTo p n s = some s' →
      ∀ k, iterate p (n + k) s = iterate p k s' := by
  intro n
  induction n with
  | zero =>
    intro s s' h k
    simp only [stepsTo] at h
    cases h
    simp
  | succ n ih =>
    intro s s' h k
    simp only [stepsTo] at h
    cases hs : step p s with
    | next m =>
      rw [hs] at h
      have harith : n + 1 + k = (n + k) + 1 := by omega
      rw [harith]
      simp only [iterate, hs]
      exact ih m s' h k
    | done t out => rw [hs] at h; cases h

/-- Iterating with more fuel preserves a produced outcome. -/
theorem iterate_le (p : MProgram) :
    ∀ (fuel fuel' : Nat) (s : MState) (r : TermInfo × List String),
      fuel ≤ fuel' → iterate p fuel s = some r → iterate p fuel' s = some r := by
  intro fuel
  induction fuel with
  | zero => intro fuel' s r _ h; simp [iterate] at h
  | succ fuel ih =>
    intro fuel' s r hle h
    cases fuel' with
    | zero => omega
    | succ fuel' =>
      simp only [iterate] at h ⊢
      cases hs : step p s with
      | next m => rw [hs] at h; exact ih fuel' m r (by omega) h
      | done t out => rw [hs] at h; exact h

/-- If a reachable state's next step terminates the machine, the whole run
produces exactly that outcome. -/
theorem runOut_of_reach (p : MProgram) (s0 s : MState) (n : Nat)
    (t : TermInfo) (out : List String)
    (hwf : wf p = true) (hinit : initState p = some s0)
    (hsteps : stepsTo p n s0 = some s) (hstep : step p s = .done t out) :
    runOut p (n + 1) = some (t, out) := by
  unfold runOut
  simp only [hwf, hinit, if_true]
  rw [iterate_of_stepsTo p n s0 s hsteps 1]
  simp [iterate, hstep]

/-- The outcome-only version of `runOut_of_reach`. -/
theorem run_of_reach (p : MProgram) (s0 s : MState) (n : Nat)
    (t : TermInfo) (out : List String)
    (hwf : wf p = true) (hinit : initState p = some s0)
    (hsteps : stepsTo p n s0 = some s) (hstep : step p s = .done t out) :
    run p (n + 1) = some t := by
  unfold run
  rw [runOut_of_reach p s0 s n t out hwf hinit hsteps hstep]
  rfl

/-- When the machine sits at a terminator, `step` dispatches to `termStep`,
and the state decomposes accordingly. -/
theorem atTerminator_spec (p : MProgram) (s : MState) (t : MTerm)
    (h : atTerminator p s = some t) :
    ∃ fr rest f blk, s.stack = fr :: rest ∧
      lookupFn p fr.fnName = some f ∧
      lookupBlock f fr.block = some blk ∧
      blk.statements.get? fr.stmtIdx = none ∧
      blk.terminator = t ∧
      step p s = termStep p f fr rest s.out t := by
  unfold atTerminator at h
  cases hstack : s.stack with
  | nil => simp only [hstack] at h; exact Option.noConfusion h
  | cons fr rest =>
    simp only [hstack] at h
    cases hf : lookupFn p fr.fnName with
    | none => simp only [hf] at h; exact Option.noConfusion h
    | some f =>
      simp only [hf] at h
      cases hb : lookupBlock f fr.block with
      | none => simp only [hb] at h; exact Option.noConfusion h
      | some blk =>
        simp only [hb] at h
        cases hg : blk.statements.get? fr.stmtIdx with
        | some st => simp only [hg] at h; exact Option.noConfusion h
        | none =>
          simp only [hg, Option.some.injEq] at h
          exact ⟨fr, rest, f, blk, rfl, hf, hb, hg, h, by
            unfold step; simp only [hstack, hf, hb, hg, h]⟩

/-- When the machine sits at a statement, `step` dispatches to `stmtStep`. -/
theorem atStatement_spec (p : MProgram) (s : MState) (st : MStmt)
    (h : atStatement p s = some st) :
    ∃ fr rest f blk, s.stack = fr :: rest ∧
      lookupFn p fr.fnName = some f ∧
      lookupBlock f fr.block = some blk ∧
      blk.statements.get? fr.stmtIdx = some st ∧
      step p s = stmtStep f fr rest s.out st := by
  unfold atStatement at h
  cases hstack : s.stack with
  | nil => simp only [hstack] at h; exact Option.noConfusion h
  | cons fr rest =>
    simp only [hstack] at h
    cases hf : lookupFn p fr.fnName with
    | none => simp only [hf] at h; exact Option.noConfusion h
    | some f =>
      simp only [hf] at h
      cases hb : lookupBlock f fr.block with
      | none => simp only [hb] at h; exact Option.noConfusion h
      | some blk =>
        simp only [hb] at h
        exact ⟨fr, rest, f, blk, rfl, hf, hb, h, by
          unfold step; simp only [hstack, hf, hb, h]⟩

/-! ### Frame-stack length across steps (for the tail-call claims) -/

/-- A statement step keeps exactly the frames it started with. -/
theorem stmtStep_next_length (f : MFunction) (fr : Frame) (rest : List Frame)
    (out : List String) (st : MStmt) (s' : MState)
    (h : stmtStep f fr rest out st = .next s') :
    s'.stack.length = rest.length + 1 := by
  cases st <;> simp only [stmtStep] at h <;> (repeat' split at h) <;>
    (try exact StepRes.noConfusion h) <;> (cases h; simp)

/-- A `Return` step pops exactly one frame. -/
theorem retStep_next_length (f : MFunction) (fr : Frame) (rest : List Frame)
    (out : List String) (s' : MState)
    (h : retStep f fr rest out = .next s') :
    s'.stack.length = rest.length := by
  unfold retStep at h
  repeat' split at h
  all_goals (try exact StepRes.noConfusion h)
  all_goals (cases h; simp)

/-- An intrinsic step keeps exactly the frames it started with. -/
theorem intrinsicStep_next_length (f : MFunction) (fr : Frame) (rest : List Frame)
    (out : List String) (i : MIntrinsic) (arguments : List MExpr)
    (nextBlock : Option Nat) (s' : MState)
    (h : intrinsicStep f fr rest out i arguments nextBlock = .next s') :
    s'.stack.length = rest.length + 1 := by
  unfold intrinsicStep at h
  repeat' split at h
  all_goals (try exact StepRes.noConfusion h)
  all_goals (cases h; simp)

/-- The only way `callCommon` continues is through its frame builder. -/
theorem callCommon_next (p : MProgram) (f : MFunction) (fr : Frame)
    (out : List String) (callee : MExpr) (arguments : List (MExpr × ArgAbi))
    (mk : Nat → MFunction → List Value → StepRes) (s' : MState)
    (h : callCommon p f fr out callee arguments mk = .next s') :
    ∃ a g v, mk a g v = .next s' := by
  unfold callCommon at h
  repeat' split at h
  all_goals (try exact StepRes.noConfusion h)
  exact ⟨_, _, _, h⟩

/-- A terminator step either keeps the frame count at or below its incoming
count, or it is a `Call`. -/
theorem termStep_next_length (p : MProgram) (f : MFunction) (fr : Frame)
    (rest : List Frame) (out : List String) (t : MTerm) (s' : MState)
    (h : termStep p f fr rest out t = .next s') :
    s'.stack.length ≤ rest.length + 1 ∨
      ∃ c a r nb, t = .call c a r nb := by
  cases t with
  | goto bb => left; simp only [termStep] at h; cases h; simp
  | ite c tb eb =>
    left
    simp only [termStep] at h
    repeat' split at h
    all_goals (try exact StepRes.noConfusion h)
    all_goals (cases h; simp)
  | unreachable => exact StepRes.noConfusion h
  | ret => left; simp only [termStep] at h; rw [retStep_next_length f fr rest out s' h]; omega
  | call c a r nb => right; exact ⟨c, a, r, nb, rfl⟩
  | become c a =>
    left
    simp only [termStep] at h
    obtain ⟨x, g, v, hmk⟩ := callCommon_next p f fr out c a _ s' h
    cases hmk
    exact Nat.le_refl _
  | callIntrinsic i a r nb =>
    left
    simp only [termStep] at h
    rw [intrinsicStep_next_length f fr rest out i a nb s' h]

/-- A `Become` step leaves the frame count unchanged: the callee's frame
replaces the caller's (spec §4.2). -/
theorem become_step_length (p : MProgram) (s s' : MState) (c : MExpr)
    (a : List (MExpr × ArgAbi))
    (hat : atTerminator p s = some (.become c a))
    (hstep : step p s = .next s') :
    s'.stack.length = s.stack.length := by
  obtain ⟨fr, rest, f, blk, hstack, _, _, _, hterm, hdispatch⟩ :=
    atTerminator_spec p s _ hat
  rw [hdispatch] at hstep
  simp only [termStep] at hstep
  obtain ⟨x, g, v, hmk⟩ := callCommon_next p f fr s.out c a _ s' hstep
  cases hmk
  rw [hstack]
  rfl

/-- Any continuing step that is not at a `Call` terminator keeps the frame
count at or below its incoming count. -/
theorem step_next_length (p : MProgram) (s s' : MState)
    (h : step p s = .next s') :
    s'.stack.length ≤ s.stack.length ∨
      ∃ c a r nb, atTerminator p s = some (.call c a r nb) := by
  unfold step at h
  cases hstack : s.stack with
  | nil => simp only [hstack] at h; exact StepRes.noConfusion h
  | cons fr rest =>
    simp only [hstack] at h
    cases hf : lookupFn p fr.fnName with
    | none => simp only [hf] at h; exact StepRes.noConfusion h
    | some f =>
      simp only [hf] at h
      cases hb : lookupBlock f fr.block with
      | none => simp only [hb] at h; exact StepRes.noConfusion h
      | some blk =>
        simp only [hb] at h
        cases hg : blk.statements.get? fr.stmtIdx with
        | some st =>
          simp only [hg] at h
          left
          rw [stmtStep_next_length f fr rest s.out st s' h]
          simp
        | none =>
          simp only [hg] at h
          rcases termStep_next_length p f fr rest s.out blk.terminator s' h with
            hle | ⟨c, a, r, nb, hcall⟩
          · left; simpa using hle
          · right
            exact ⟨c, a, r, nb, by
              unfold atTerminator
              rw [hstack]
              simp only [hf, hb, hg, hcall]⟩

/-- Along a call-free execution fragment the frame count never grows. -/
theorem noCallChain_length (p : MProgram) :
    ∀ (n : Nat) (s s' : MState), noCallChain p n s s' →
      s'.stack.length ≤ s.stack.length := by
  intro n
  induction n with
  | zero => intro s s' h; cases h; exact Nat.le_refl _
  | succ n ih =>
    intro s s' h
    obtain ⟨hnocall, m, hstep, hchain⟩ := h
    have h1 := ih m s' hchain
    rcases step_next_length p s m hstep with hle | ⟨c, a, r, nb, hcall⟩
    · omega
    · exact absurd hcall (hnocall c a r nb)

/-! ### The machine never produces the deadlock outcome (single thread) -/

/-- Statement steps never produce `Deadlock`. -/
theorem stmtStep_noDeadlock (f : MFunction) (fr : Frame) (rest : List Frame)
    (out : List String) (st : MStmt) : resNoDeadlock (stmtStep f fr rest out st) := by
  cases st <;> simp only [stmtStep] <;> (repeat' split) <;> trivial

/-- `Return` steps never produce `Deadlock`. -/
theorem retStep_noDeadlock (f : MFunction) (fr : Frame) (rest : List Frame)
    (out : List String) : resNoDeadlock (retStep f fr rest out) := by
  unfold retStep
  repeat' split
  all_goals trivial

/-- Intrinsic steps never produce `Deadlock`. -/
theorem intrinsicStep_noDeadlock (f : MFunction) (fr : Frame) (rest : List Frame)
    (out : List String) (i : MIntrinsic) (arguments : List MExpr)
    (nextBlock : Option Nat) :
    resNoDeadlock (intrinsicStep f fr rest out i arguments nextBlock) := by
  unfold intrinsicStep
  repeat' split
  all_goals trivial

/-- `callCommon` never produces `Deadlock` when its frame builder does not. -/
theorem callCommon_noDeadlock (p : MProgram) (f : MFunction) (fr : Frame)
    (out : List String) (callee : MExpr) (arguments : List (MExpr × ArgAbi))
    (mk : Nat → MFunction → List Value → StepRes)
    (hmk : ∀ a g v, resNoDeadlock (mk a g v)) :
    resNoDeadlock (callCommon p f fr out callee arguments mk) := by
  unfold callCommon
  repeat' split
  all_goals first
  | trivial
  | apply hmk

/-- Terminator steps never produce `Deadlock`. -/
theorem termStep_noDeadlock (p : MProgram) (f : MFunction) (fr : Frame)
    (rest : List Frame) (out : List String) (t : MTerm) :
    resNoDeadlock (termStep p f fr rest out t) := by
  cases t with
  | goto bb => trivial
  | ite c tb eb => simp only [termStep]; repeat' split; all_goals trivial
  | unreachable => trivial
  | ret => exact retStep_noDeadlock f fr rest out
  | call c a r nb =>
    exact callCommon_noDeadlock p f fr out c a _ (fun _ _ _ => trivial)
  | become c a =>
    exact callCommon_noDeadlock p f fr out c a _ (fun _ _ _ => trivial)
  | callIntrinsic i a r nb => exact intrinsicStep_noDeadlock f fr rest out i a nb

/-- The machine step never produces `Deadlock` (the modelled fragment is
single-threaded, so the spec's reserved deadlock outcome is never
produced). -/
theorem step_noDeadlock (p : MProgram) (s : MState) : resNoDeadlock (step p s) := by
  unfold step
  repeat' split
  · trivial
  · trivial
  · trivial
  · apply stmtStep_noDeadlock
  · apply termStep_noDeadlock

/-- A terminating iteration never reports `Deadlock`. -/
theorem iterate_noDeadlock (p : MProgram) :
    ∀ (fuel : Nat) (s : MState) (out : List String),
      iterate p fuel s ≠ some (.Deadlock, out) := by
  intro fuel
  induction fuel with
  | zero => intro s out h; simp [iterate] at h
  | succ fuel ih =>
    intro s out h
    simp only [iterate] at h
    cases hs : step p s with
    | next m => rw [hs] at h; exact ih m out h
    | done t o =>
      rw [hs] at h
      have := step_noDeadlock p s
      rw [hs] at this
      cases h
      exact this

/-- A run never reports `Deadlock`. -/
theorem run_noDeadlock (p : MProgram) (fuel : Nat) :
    run p fuel ≠ some .Deadlock := by
  intro h
  unfold run runOut at h
  by_cases hwf : wf p = true
  · rw [hwf] at h
    simp only [if_true] at h
    cases hinit : initState p with
    | none => simp only [hinit] at h; simp at h
    | some s =>
      simp only [hinit] at h
      cases hit : iterate p fuel s with
      | none => simp only [hit] at h; simp at h
      | some r =>
        obtain ⟨t, o⟩ := r
        simp only [hit, Option.map_some] at h
        cases h
        exact iterate_noDeadlock p fuel s o hit
  · rw [Bool.not_eq_true] at hwf
    rw [hwf] at h
    simp at h

/-! ### Behaviour of the call/become argument discipline -/

/-- With an existing callee and a mismatched argument count, `callCommon`
raises UB with the argument-count message before evaluating anything
else. -/
theorem callCommon_wrongCount (p : MProgram) (f : MFunction) (fr : Frame)
    (out : List String) (fname : Nat) (g : MFunction)
    (arguments : List (MExpr × ArgAbi)) (mk : Nat → MFunction → List Value → StepRes)
    (hlk : lookupFn p fname = some g)
    (hne : arguments.length ≠ g.args.length) :
    callCommon p f fr out (.fnPtr fname) arguments mk = .done (.Ub ubNumArgsMsg) out := by
  unfold callCommon
  have he : evalExpr f fr (.fnPtr fname) = .ok (.fn fname) := rfl
  simp only [he, hlk]
  rw [if_pos hne]

/-- With an existing callee, a matching argument count but some slot whose
ABI disagrees, `callCommon` raises UB with the argument-ABI message. -/
theorem callCommon_wrongAbi (p : MProgram) (f : MFunction) (fr : Frame)
    (out : List String) (fname : Nat) (g : MFunction)
    (arguments : List (MExpr × ArgAbi)) (mk : Nat → MFunction → List Value → StepRes)
    (hlk : lookupFn p fname = some g)
    (heq : arguments.length = g.args.length)
    (hall : ((arguments.zip g.args).all fun x => x.1.2 = x.2.2) = false) :
    callCommon p f fr out (.fnPtr fname) arguments mk = .done (.Ub ubArgAbiMsg) out := by
  unfold callCommon
  have he : evalExpr f fr (.fnPtr fname) = .ok (.fn fname) := rfl
  simp only [he, hlk]
  rw [if_neg (by intro hc; exact hc heq)]
  rw [if_pos (by simp [hall])]

/-- A single mismatching slot falsifies the zipped per-slot ABI check. -/
theorem abi_all_eq_false : ∀ (arguments : List (MExpr × ArgAbi))
    (dargs : List (Nat × ArgAbi)) (i : Nat) (h1 : i < arguments.length)
    (h2 : i < dargs.length),
    (arguments.get ⟨i, h1⟩).2 ≠ (dargs.get ⟨i, h2⟩).2 →
    ((arguments.zip dargs).all fun x => x.1.2 = x.2.2) = false := by
  intro arguments
  induction arguments with
  | nil => intro dargs i h1; simp at h1
  | cons a as ih =>
    intro dargs i h1 h2 hne
    cases dargs with
    | nil => simp at h2
    | cons d ds =>
      cases i with
      | zero =>
        simp only [List.zip_cons_cons, List.all_cons, Bool.and_eq_false_iff]
        left
        simpa using hne
      | succ i =>
        simp only [List.zip_cons_cons, List.all_cons, Bool.and_eq_false_iff]
        right
        exact ih ds i (by simpa using h1) (by simpa using h2) hne

/-! ## Claims about the tail-call discipline -/

/-- C3: whenever execution reaches a `Become` terminator whose callee names
an existing function, a wrong argument count makes the run's outcome `Ub`
with a message containing "number of arguments does not agree", and a
matching count with some slot's passing convention disagreeing with the
callee's declared ABI makes the outcome `Ub` with a message containing
"argument ABI does not agree". -/
theorem claim_C3 (p : MProgram) (n : Nat) (s0 s : MState) (fcallee : Nat)
    (g : MFunction) (arguments : List (MExpr × ArgAbi))
    (hwf : wf p = true) (hinit : initState p = some s0)
    (hsteps : stepsTo p n s0 = some s)
    (hat : atTerminator p s = some (.become (.fnPtr fcallee) arguments))
    (hlk : lookupFn p fcallee = some g) :
    (arguments.length ≠ g.args.length →
      run p (n + 1) = some (.Ub ubNumArgsMsg) ∧
        containsStr ubNumArgsMsg "number of arguments does not agree") ∧
    (arguments.length = g.args.length →
      (∃ i h1 h2, (arguments.get ⟨i, h1⟩).2 ≠ (g.args.get ⟨i, h2⟩).2) →
      run p (n + 1) = some (.Ub ubArgAbiMsg) ∧
        containsStr ubArgAbiMsg "argument ABI does not agree") := by
  obtain ⟨fr, rest, f, blk, hstack, hf, hb, hg, hterm, hdisp⟩ :=
    atTerminator_spec p s _ hat
  constructor
  · intro hne
    have hstep : step p s = .done (.Ub ubNumArgsMsg) s.out := by
      rw [hdisp]
      simp only [termStep]
      exact callCommon_wrongCount p f fr s.out fcallee g arguments _ hlk hne
    refine ⟨run_of_reach p s0 s n _ s.out hwf hinit hsteps hstep, ?_⟩
    exact ⟨"call ABI violation: ", "", by rfl⟩
  · intro heq hex
    obtain ⟨i, h1, h2, hne⟩ := hex
    have hall := abi_all_eq_false arguments g.args i h1 h2 hne
    have hstep : step p s = .done (.Ub ubArgAbiMsg) s.out := by
      rw [hdisp]
      simp only [termStep]
      exact callCommon_wrongAbi p f fr s.out fcallee g arguments _ hlk heq hall
    refine ⟨run_of_reach p s0 s n _ s.out hwf hinit hsteps hstep, ?_⟩
    exact ⟨"call ABI violation: ", "", by rfl⟩

/-- Witness for C3: the `become_arg_count` program's run is UB with the
argument-count message, and the `become_arg_abi` program's run is UB with
the argument-ABI message. -/
theorem claim_C3_witness :
    run becomeArgCountProg 2 = some (.Ub ubNumArgsMsg) ∧
      run becomeArgAbiProg 1 = some (.Ub ubArgAbiMsg) := by
  constructor
  · exact ((claim_C3 becomeArgCountProg 1 bsState0 acState1 1 divergingFn
      [(.constInt ⟨true, 4⟩ 7, .register), (.constInt ⟨true, 4⟩ 7, .register)]
      (by rfl) (by rfl) (by rfl) (by rfl) (by rfl)).1 (by decide)).1
  · exact ((claim_C3 becomeArgAbiProg 0 bsState0 bsState0 1 divergingFn
      [(.constInt ⟨true, 4⟩ 7, .stack 4 4)]
      (by rfl) (by rfl) (by rfl) (by rfl) (by rfl)).2 (by decide)
      ⟨0, by decide, by decide, by decide⟩).1

/-- C4: a `Become` step never increases the number of frames on the
executing thread's stack (first part), and along any execution fragment
containing no ordinary `Call` — in particular along a tail-call chain of any
length — the frame count never rises above its value at the start of the
fragment (second part). -/
theorem claim_C4 :
    (∀ (p : MProgram) (s s' : MState) (c : MExpr) (a : List (MExpr × ArgAbi)),
      atTerminator p s = some (.become c a) → step p s = .next s' →
      s'.stack.length ≤ s.stack.length) ∧
    (∀ (p : MProgram) (n : Nat) (s s' : MState), noCallChain p n s s' →
      s'.stack.length ≤ s.stack.length) :=
  ⟨fun p s s' c a hat hstep => Nat.le_of_eq (become_step_length p s s' c a hat hstep),
   fun p n s s' h => noCallChain_length p n s s' h⟩

/-- Witness for C4: the `Become` step of `become_success` keeps the frame
count at one. -/
theorem claim_C4_witness : bsState1.stack.length ≤ bsState0.stack.length :=
  claim_C4.1 becomeSuccessProg bsState0 bsState1 (.fnPtr 1)
    [(.constInt ⟨true, 4⟩ 7, .register)] (by rfl) (by rfl)

/-- C5: a program containing a `Become` terminator whose callee names a
function that does not exist fails the static well-formedness check, so its
run's outcome is `IllFormed` (not `Ub`), whatever the fuel. -/
theorem claim_C5 (p : MProgram)
    (h : ∃ fname fn, (fname, fn) ∈ p.functions ∧
      ∃ bname blk, (bname, blk) ∈ fn.blocks ∧
      ∃ fcallee arguments, blk.terminator = .become (.fnPtr fcallee) arguments ∧
        lookupFn p fcallee = none) :
    ∀ fuel, run p fuel = some .IllFormed := by
  obtain ⟨fname, fn, hmem, bname, blk, hbmem, fcallee, arguments, hterm, hnone⟩ := h
  have hwf : wf p = false := by
    unfold wf
    rw [Bool.and_eq_false_iff]
    right
    rw [List.all_eq_false]
    refine ⟨(fname, fn), hmem, ?_⟩
    rw [Bool.not_eq_true, List.all_eq_false]
    refine ⟨(bname, blk), hbmem, ?_⟩
    rw [Bool.not_eq_true, Bool.and_eq_false_iff]
    right
    rw [hterm]
    simp only [termOk, exprOk, hnone]
    simp
  intro fuel
  unfold run runOut
  rw [hwf]
  simp

/-- Witness for C5: the `become_non_exist` program is `IllFormed`. -/
theorem claim_C5_witness : run becomeNonExistProg 5 = some .IllFormed :=
  claim_C5 becomeNonExistProg
    ⟨0, { args := [], ret := none, locals := [],
          blocks := [(0, ⟨[], .become (.fnPtr 1) []⟩)], start := 0 },
      by decide, 0, ⟨[], .become (.fnPtr 1) []⟩, by decide, 1, [], rfl, by rfl⟩ 5

/-- C7: whenever execution reaches a `Return` with a single frame on the
stack, or an `Exit` intrinsic, without having violated any dynamic rule on
the way (it is a reachable state of a well-formed program), the run's
outcome is `MachineStop`. -/
theorem claim_C7 (p : MProgram) (n : Nat) (s0 s : MState)
    (hwf : wf p = true) (hinit : initState p = some s0)
    (hsteps : stepsTo p n s0 = some s)
    (hend : (atTerminator p s = some .ret ∧ s.stack.length = 1) ∨
      ∃ arguments retSlot nextBlock,
        atTerminator p s = some (.callIntrinsic .exit arguments retSlot nextBlock)) :
    run p (n + 1) = some .MachineStop := by
  rcases hend with ⟨hat, hlen⟩ | ⟨arguments, retSlot, nextBlock, hat⟩
  · obtain ⟨fr, rest, f, blk, hstack, hf, hb, hg, hterm, hdisp⟩ :=
      atTerminator_spec p s _ hat
    have hrest : rest = [] := by
      rw [hstack] at hlen
      simp only [List.length_cons] at hlen
      exact List.eq_nil_of_length_eq_zero (by omega)
    have hstep : step p s = .done .MachineStop s.out := by
      rw [hdisp, hrest]
      rfl
    exact run_of_reach p s0 s n _ s.out hwf hinit hsteps hstep
  · obtain ⟨fr, rest, f, blk, hstack, hf, hb, hg, hterm, hdisp⟩ :=
      atTerminator_spec p s _ hat
    have hstep : step p s = .done .MachineStop s.out := by
      rw [hdisp]
      rfl
    exact run_of_reach p s0 s n _ s.out hwf hinit hsteps hstep

/-- Witness for C7: `become_success` reaches `diverging`'s `Exit` after one
step and stops cleanly. -/
theorem claim_C7_witness : run becomeSuccessProg 2 = some .MachineStop :=
  claim_C7 becomeSuccessProg 1 bsState0 bsState1 (by rfl) (by rfl) (by rfl)
    (Or.inr ⟨[], none, none, by rfl⟩)

/-- C6: loading a boolean-typed local that is storage-live but was never
assigned is UB, and the message names the loaded type and states the
validity-invariant violation in the form "load at type … but the data in
memory violates the validity invariant". -/
theorem claim_C6 (p : MProgram) (n : Nat) (s0 s : MState) (dst : MPlace)
    (l : Nat) (fr : Frame) (rest : List Frame) (f : MFunction) (pty : PlaceType)
    (hwf : wf p = true) (hinit : initState p = some s0)
    (hsteps : stepsTo p n s0 = some s)
    (hstack : s.stack = fr :: rest)
    (hf : lookupFn p fr.fnName = some f)
    (hst : atStatement p s = some (.assign dst (.load (.loc l))))
    (hlive : lookupLocal fr l = some .uninit)
    (hty : lookupLocalTy f l = some pty)
    (hbool : pty.ty = .bool) :
    run p (n + 1) = some (.Ub (uninitLoadMsg pty)) ∧
      uninitLoadMsg pty =
        "load at type " ++ ptyDbg pty ++
          " but the data in memory violates the validity invariant" ∧
      containsStr (ptyDbg pty) "Bool" := by
  obtain ⟨fr2, rest2, f2, blk, hstack2, hf2, hb2, hg2, hdisp⟩ :=
    atStatement_spec p s _ hst
  rw [hstack] at hstack2
  obtain ⟨hfr, hrest⟩ : fr2 = fr ∧ rest2 = rest := by
    have h1 := List.cons.inj hstack2
    exact ⟨h1.1.symm, h1.2.symm⟩
  subst hfr
  subst hrest
  rw [hf] at hf2
  have hff : f2 = f := by cases hf2; rfl
  subst hff
  cases dst with
  | loc dl =>
    have hstep : step p s = .done (.Ub (uninitLoadMsg pty)) s.out := by
      rw [hdisp]
      simp only [stmtStep, evalExpr, readLocal, hlive, hty]
    refine ⟨run_of_reach p s0 s n _ s.out hwf hinit hsteps hstep, rfl, ?_⟩
    refine ⟨"PlaceType \x7b ty: ", ", align: Align(" ++ toString pty.align ++ ") \x7d", ?_⟩
    simp only [ptyDbg, hbool, tyDbg]
    simp only [String.append_assoc]

/-- Witness for C6: the `uninit_read` program's run is UB with the
validity-invariant message for the `bool` place type. -/
theorem claim_C6_witness :
    run uninitReadProg 3 = some (.Ub (uninitLoadMsg boolPTy)) :=
  (claim_C6 uninitReadProg 2 ⟨[⟨0, [], 0, 0, none⟩], []⟩ urState2 (.loc 0) 1
    ⟨0, [(0, .uninit), (1, .uninit)], 0, 2, none⟩ []
    { args := [], ret := none,
      locals := [(0, boolPTy), (1, boolPTy)],
      blocks := [(0, ⟨[.storageLive 0, .storageLive 1,
                       .assign (.loc 0) (.load (.loc 1))], exitTerm⟩)],
      start := 0 }
    boolPTy (by rfl) (by rfl) (by rfl) (by rfl) (by rfl) (by rfl) (by rfl)
    (by rfl) (by rfl)).1

set_option maxRecDepth 10000 in
/-- C2: for every input `n` in `0..10`, the fibonacci program recursing via
`Become` and the one recursing via ordinary `Call` print identical results,
both equal to the decimal rendering of the reference recurrence
`fib(n, a, b) = b if n = 0 else fib(n-1, b, a+b)` at `(n, 0, 1)`. -/
theorem claim_C2 : ∀ n, n < 10 →
    getStdout (fibBecomeProg n) 400 = getStdout (fibCallProg n) 400 ∧
    getStdout (fibBecomeProg n) 400 = some [toString (equiv_fib n 0 1)] := by
  decide

/-- Witness for C2: both variants print "2" for `n = 3`. -/
theorem claim_C2_witness :
    getStdout (fibBecomeProg 3) 400 = getStdout (fibCallProg 3) 400 ∧
    getStdout (fibBecomeProg 3) 400 = some [toString (equiv_fib 3 0 1)] :=
  claim_C2 3 (by decide)

/-! ## The outcome classifier and the driver (C8) -/

/-- The looping program never produces an outcome, whatever the fuel. -/
theorem loopProg_no_outcome : ∀ fuel, run loopProg fuel = none := by
  have hstep : step loopProg loopState = .next loopState := by rfl
  have hiter : ∀ fuel, iterate loopProg fuel loopState = none := by
    intro fuel
    induction fuel with
    | zero => rfl
    | succ n ih => simp only [iterate, hstep]; exact ih
  intro fuel
  unfold run runOut
  have h1 : wf loopProg = true := rfl
  have h2 : initState loopProg = some loopState := rfl
  simp only [h1, h2, if_true]
  rw [hiter fuel]
  rfl

/-- Counterexample to C8 as stated: not every run of a program terminates
with an outcome — the well-formed single-block program whose only terminator
jumps back to its own block runs forever. -/
theorem claim_C8_counterexample :
    ¬ ∃ fuel t, run loopProg fuel = some t := by
  rintro ⟨fuel, t, h⟩
  rw [loopProg_no_outcome fuel] at h
  cases h

/-- Outcomes are preserved by adding fuel. -/
theorem runOut_mono (p : MProgram) (f1 f2 : Nat) (r : TermInfo × List String)
    (hle : f1 ≤ f2) (h : runOut p f1 = some r) : runOut p f2 = some r := by
  unfold runOut at h ⊢
  by_cases hwf : wf p = true
  · simp only [hwf, if_true] at h ⊢
    cases hinit : initState p with
    | none => simp only [hinit] at h ⊢; exact h
    | some s =>
      simp only [hinit] at h ⊢
      exact iterate_le p f1 f2 s r hle h
  · rw [Bool.not_eq_true] at hwf
    simp only [hwf] at h ⊢
    simpa using h

/-- C8 (amended): every run that produces an outcome produces exactly one —
the outcome does not depend on the fuel — and that outcome is one of
`MachineStop`, `IllFormed` or `Ub(message)`; on such outcomes the driver's
catch-all `unreachable` branch is never taken.  (Runs need not terminate: see
the counterexample's looping program.) -/
theorem claim_C8 :
    (∀ (p : MProgram) (fuel : Nat) (t : TermInfo), run p fuel = some t →
      (t = .MachineStop ∨ t = .IllFormed ∨ ∃ m, t = .Ub m) ∧
        driverHitsCatchAll t = false) ∧
    (∀ (p : MProgram) (f1 f2 : Nat) (t1 t2 : TermInfo),
      run p f1 = some t1 → run p f2 = some t2 → t1 = t2) := by
  constructor
  · intro p fuel t h
    cases t with
    | Ub m => exact ⟨Or.inr (Or.inr ⟨m, rfl⟩), rfl⟩
    | MachineStop => exact ⟨Or.inl rfl, rfl⟩
    | IllFormed => exact ⟨Or.inr (Or.inl rfl), rfl⟩
    | Deadlock => exact absurd h (run_noDeadlock p fuel)
  · intro p f1 f2 t1 t2 h1 h2
    unfold run at h1 h2
    cases hr1 : runOut p f1 with
    | none => rw [hr1] at h1; cases h1
    | some r1 =>
      rw [hr1] at h1
      cases hr2 : runOut p f2 with
      | none => rw [hr2] at h2; cases h2
      | some r2 =>
        rw [hr2] at h2
        rcases Nat.le_total f1 f2 with hle | hle
        · have := runOut_mono p f1 f2 r1 hle hr1
          rw [this] at hr2
          cases hr2
          simp at h1 h2
          rw [← h1, ← h2]
        · have := runOut_mono p f2 f1 r2 hle hr2
          rw [this] at hr1
          cases hr1
          simp at h1 h2
          rw [← h1, ← h2]

/-- Witness for C8 (amended): the clean stop of `become_success` is one of
the three outcomes and does not take the driver's catch-all branch. -/
theorem claim_C8_witness : driverHitsCatchAll TermInfo.MachineStop = false :=
  (claim_C8.1 becomeSuccessProg 20 .MachineStop (by rfl)).2

/-! ## Claim C1: misaligned struct bases and the address-of exception -/

/-- C1: for the 4-byte-aligned struct `S` with single-byte fields followed by
`u16` arrays, and any base address misaligned for the struct: (1) every
write to a single-byte struct field through a pointer obtained by address-of
succeeds the alignment check; (2) every write to a `u16` array element
through a pointer obtained by address-of succeeds whenever the base is
compatible with the element (the element's address is 2-aligned); and (3)
every access that dereferences the same misaligned base directly at the
struct type to reach an array field, without an intervening address-of,
fails the alignment check and is UB. -/
theorem claim_C1 :
    (∀ base fieldOff, base % 4 ≠ 0 → fieldOff ∈ [0, 1, 2, 3] →
      accessAligned
        (derefPlace (addrOfPlace (fieldPlace (derefPlace base structS_PTy) fieldOff))
          u8PTy)) ∧
    (∀ base arrOff i, base % 4 ≠ 0 → arrOff ∈ [4, 18] → i < 7 →
      (base + arrOff + 2 * i) % 2 = 0 →
      accessAligned
        (derefPlace
          (addrOfPlace (indexPlace (fieldPlace (derefPlace base structS_PTy) arrOff) i 2 2))
          u16PTy)) ∧
    (∀ base arrOff, base % 4 ≠ 0 → arrOff ∈ [4, 18] →
      ¬ accessAligned (fieldPlace (derefPlace base structS_PTy) arrOff)) := by
  refine ⟨?_, ?_, ?_⟩
  · intro base fieldOff _ _
    simp [accessAligned, derefPlace, addrOfPlace, fieldPlace, u8PTy, Nat.mod_one]
  · intro base arrOff i _ _ _ hcompat
    simp only [accessAligned, derefPlace, addrOfPlace, fieldPlace, indexPlace, u16PTy]
    omega
  · intro base arrOff hmis _
    simp only [accessAligned, derefPlace, fieldPlace, structS_PTy]
    exact hmis

/-- Witness for C1 at the misaligned base 2 (≡ 2 mod 4, as in the tests'
`k+2` pointer): the address-of-derived field and element writes pass the
check, the direct struct-typed access to `array1` fails it. -/
theorem claim_C1_witness :
    accessAligned
      (derefPlace (addrOfPlace (fieldPlace (derefPlace 2 structS_PTy) 0)) u8PTy) ∧
    accessAligned
      (derefPlace
        (addrOfPlace (indexPlace (fieldPlace (derefPlace 2 structS_PTy) 4) 5 2 2))
        u16PTy) ∧
    ¬ accessAligned (fieldPlace (derefPlace 2 structS_PTy) 4) :=
  ⟨claim_C1.1 2 0 (by decide) (by decide),
   claim_C1.2.1 2 4 5 (by decide) (by decide) (by decide) (by decide),
   claim_C1.2.2 2 4 (by decide) (by decide)⟩

/-! ## Properties of the comptype accumulator -/

/-- The position lookup fails exactly for absent types. -/
theorem comptypePos_eq_none_iff (t : CompType) :
    ∀ l : List CompType, comptypePos t l = none ↔ t ∉ l := by
  intro l
  induction l with
  | nil => simp [comptypePos]
  | cons c rest ih =>
    simp only [comptypePos]
    by_cases hc : c = t
    · simp [hc]
    · simp only [if_neg hc, List.mem_cons]
      constructor
      · intro h hmem
        rcases hmem with h1 | h1
        · exact hc h1.symm
        · exact (ih.mp (by simpa using h)) h1
      · intro h
        have : t ∉ rest := fun hm => h (Or.inr hm)
        simp [ih.mpr this]

/-- Looking up a present comptype leaves the accumulator unchanged. -/
theorem addComptype_of_mem {t : CompType} {ct : List CompType} (h : t ∈ ct) :
    addComptype ct t = ct := by
  unfold addComptype get_comptype_index
  cases hp : comptypePos t ct with
  | none => exact absurd ((comptypePos_eq_none_iff t ct).mp hp) (by simp [h])
  | some i => rfl

/-- Looking up an absent comptype appends it at the end. -/
theorem addComptype_of_not_mem {t : CompType} {ct : List CompType} (h : t ∉ ct) :
    addComptype ct t = ct ++ [t] := by
  unfold addComptype get_comptype_index
  rw [(comptypePos_eq_none_iff t ct).mpr h]

/-- Membership after one lookup. -/
theorem mem_addComptype (x t : CompType) (ct : List CompType) :
    x ∈ addComptype ct t ↔ x ∈ ct ∨ x = t := by
  by_cases h : t ∈ ct
  · rw [addComptype_of_mem h]
    constructor
    · exact Or.inl
    · rintro (hx | rfl)
      · exact hx
      · exact h
  · rw [addComptype_of_not_mem h]
    simp

/-- One lookup preserves freedom from duplicates. -/
theorem nodup_addComptype (t : CompType) (ct : List CompType) (h : ct.Nodup) :
    (addComptype ct t).Nodup := by
  by_cases hm : t ∈ ct
  · rw [addComptype_of_mem hm]; exact h
  · rw [addComptype_of_not_mem hm]
    simp [List.nodup_append, h, hm]

/-- Folding a concatenation folds the parts in order. -/
theorem addAll_append (ct : List CompType) (a b : List CompType) :
    addAll ct (a ++ b) = addAll (addAll ct a) b :=
  List.foldl_append _ _ a b

/-- Membership after folding a list of lookups. -/
theorem mem_addAll (x : CompType) :
    ∀ (l ct : List CompType), x ∈ addAll ct l ↔ x ∈ ct ∨ x ∈ l := by
  intro l
  induction l with
  | nil => simp [addAll]
  | cons t rest ih =>
    intro ct
    have : addAll ct (t :: rest) = addAll (addComptype ct t) rest := rfl
    rw [this, ih, mem_addComptype]
    simp only [List.mem_cons]
    tauto

/-- Folding lookups preserves freedom from duplicates. -/
theorem nodup_addAll :
    ∀ (l ct : List CompType), ct.Nodup → (addAll ct l).Nodup := by
  intro l
  induction l with
  | nil => intro ct h; exact h
  | cons t rest ih =>
    intro ct h
    have : addAll ct (t :: rest) = addAll (addComptype ct t) rest := rfl
    rw [this]
    exact ih _ (nodup_addComptype t ct h)

/-! ## Properties of the stable sort-by-name -/

/-- Membership is preserved by insertion. -/
theorem sortInsert_mem {α : Type} (x z : Nat × α) :
    ∀ l : List (Nat × α), z ∈ sortInsert x l ↔ z = x ∨ z ∈ l := by
  intro l
  induction l with
  | nil => simp [sortInsert]
  | cons y rest ih =>
    simp only [sortInsert]
    by_cases hc : x.1 ≤ y.1
    · simp [if_pos hc]
    · simp only [if_neg hc, List.mem_cons, ih]
      tauto

/-- Insertion produces a permutation of consing. -/
theorem sortInsert_perm {α : Type} (x : Nat × α) :
    ∀ l : List (Nat × α), (sortInsert x l).Perm (x :: l) := by
  intro l
  induction l with
  | nil => simp [sortInsert]
  | cons y rest ih =>
    simp only [sortInsert]
    by_cases hc : x.1 ≤ y.1
    · rw [if_pos hc]
    · rw [if_neg hc]
      exact (List.Perm.cons y ih).trans (List.Perm.swap x y rest)

/-- The name sort permutes its input. -/
theorem sortByKey_perm {α : Type} :
    ∀ l : List (Nat × α), (sortByKey l).Perm l := by
  intro l
  induction l with
  | nil => simp [sortByKey]
  | cons x rest ih =>
    simp only [sortByKey]
    exact (sortInsert_perm x (sortByKey rest)).trans (List.Perm.cons x ih)

/-- Insertion into a key-sorted list stays key-sorted. -/
theorem sortInsert_pairwise {α : Type} (x : Nat × α) :
    ∀ l : List (Nat × α),
      List.Pairwise (fun a b : Nat × α => a.1 ≤ b.1) l →
      List.Pairwise (fun a b : Nat × α => a.1 ≤ b.1) (sortInsert x l) := by
  intro l
  induction l with
  | nil => intro h; simp [sortInsert]
  | cons y rest ih =>
    intro h
    rw [List.pairwise_cons] at h
    obtain ⟨hy, hrest⟩ := h
    simp only [sortInsert]
    by_cases hc : x.1 ≤ y.1
    · rw [if_pos hc]
      rw [List.pairwise_cons]
      refine ⟨?_, List.pairwise_cons.mpr ⟨hy, hrest⟩⟩
      intro z hz
      rcases List.mem_cons.mp hz with rfl | hz'
      · exact hc
      · exact Nat.le_trans hc (hy z hz')
    · rw [if_neg hc]
      rw [List.pairwise_cons]
      refine ⟨?_, ih hrest⟩
      intro z hz
      rcases (sortInsert_mem x z rest).mp hz with rfl | hz'
      · omega
      · exact hy z hz'

/-- The name sort produces an ascending-by-name list. -/
theorem sortByKey_pairwise {α : Type} :
    ∀ l : List (Nat × α),
      List.Pairwise (fun a b : Nat × α => a.1 ≤ b.1) (sortByKey l) := by
  intro l
  induction l with
  | nil => simp [sortByKey]
  | cons x rest ih =>
    simp only [sortByKey]
    exact sortInsert_pairwise x (sortByKey rest) ih

/-! ## The comptype accumulator effect of each formatter function -/

/-- `fmt_type` folds exactly the composite types `ctsTy` lists. -/
theorem fmt_type_cts : ∀ (t : Ty) (ct : List CompType),
    (fmt_type t ct).2 = addAll ct (ctsTy t)
  | .int _, _ => rfl
  | .bool, _ => rfl
  | .ptr _, _ => rfl
  | .tuple _ _ _, _ => rfl
  | .array elem _, ct => fmt_type_cts elem ct
  | .union _ _ _, _ => rfl

/-- `fmt_ptype` folds exactly the composite types of the place type. -/
theorem fmt_ptype_cts (pty : PlaceType) (ct : List CompType) :
    (fmt_ptype pty ct).2 = addAll ct (ctsPTy pty) :=
  fmt_type_cts pty.ty ct

mutual
/-- `fmt_place_expr` folds exactly the composite types `ctsPlace` lists. -/
theorem fmt_place_cts : ∀ (e : PlaceExpr) (ct : List CompType),
    (fmt_place_expr e ct).2 = addAll ct (ctsPlace e)
  | .localVar _, _ => rfl
  | .deref operand ptype, ct => by
    show (fmt_value_expr operand (fmt_ptype ptype ct).2).2 =
      addAll ct (ctsPTy ptype ++ ctsValue operand)
    rw [addAll_append, fmt_value_cts operand _, fmt_ptype_cts ptype ct]
  | .field root _, ct => fmt_place_cts root ct
  | .index root indexExpr, ct => by
    show (fmt_value_expr indexExpr (fmt_place_expr root ct).2).2 =
      addAll ct (ctsPlace root ++ ctsValue indexExpr)
    rw [addAll_append, fmt_value_cts indexExpr _, fmt_place_cts root ct]
/-- `fmt_value_expr` folds exactly the composite types `ctsValue` lists. -/
theorem fmt_value_cts : ∀ (e : ValueExpr) (ct : List CompType),
    (fmt_value_expr e ct).2 = addAll ct (ctsValue e)
  | .constant _ _, _ => rfl
  | .tuple l _, ct => fmt_vlist_cts l ct
  | .union _ expr union_ty, ct => by
    show (fmt_value_expr expr (fmt_type union_ty ct).2).2 =
      addAll ct (ctsTy union_ty ++ ctsValue expr)
    rw [addAll_append, fmt_value_cts expr _, fmt_type_cts union_ty ct]
  | .load _ source, ct => fmt_place_cts source ct
  | .addrOf target .raw, ct => fmt_place_cts target ct
  | .addrOf target (.ref _), ct => fmt_place_cts target ct
  | .unOp _ operand, ct => fmt_value_cts operand ct
  | .binOp (.int _ _) left right, ct => by
    show (fmt_value_expr right (fmt_value_expr left ct).2).2 =
      addAll ct (ctsValue left ++ ctsValue right)
    rw [addAll_append, fmt_value_cts right _, fmt_value_cts left ct]
  | .binOp (.intRel _) left right, ct => by
    show (fmt_value_expr right (fmt_value_expr left ct).2).2 =
      addAll ct (ctsValue left ++ ctsValue right)
    rw [addAll_append, fmt_value_cts right _, fmt_value_cts left ct]
  | .binOp (.ptrOffset _) left right, ct => by
    show (fmt_value_expr right (fmt_value_expr left ct).2).2 =
      addAll ct (ctsValue left ++ ctsValue right)
    rw [addAll_append, fmt_value_cts right _, fmt_value_cts left ct]
/-- `fmt_value_expr_list` folds exactly the composite types `ctsVList`
lists. -/
theorem fmt_vlist_cts : ∀ (l : ValueExprList) (ct : List CompType),
    (fmt_value_expr_list l ct).2 = addAll ct (ctsVList l)
  | .nil, _ => rfl
  | .cons v vs, ct => by
    show (fmt_value_expr_list vs (fmt_value_expr v ct).2).2 =
      addAll ct (ctsValue v ++ ctsVList vs)
    rw [addAll_append, fmt_vlist_cts vs _, fmt_value_cts v ct]
end

/-- `fmt_value_exprs` folds exactly the composite types `ctsValues` lists. -/
theorem fmt_value_exprs_cts : ∀ (l : List ValueExpr) (ct : List CompType),
    (fmt_value_exprs l ct).2 = addAll ct (ctsValues l)
  | [], _ => rfl
  | v :: vs, ct => by
    show (fmt_value_exprs vs (fmt_value_expr v ct).2).2 =
      addAll ct (ctsValue v ++ ctsValues vs)
    rw [addAll_append, fmt_value_exprs_cts vs _, fmt_value_cts v ct]

/-- `fmt_statement` folds exactly the composite types `ctsStmt` lists. -/
theorem fmt_statement_cts : ∀ (st : Statement) (ct : List CompType),
    (fmt_statement st ct).2 = addAll ct (ctsStmt st)
  | .assign destination source, ct => by
    show (fmt_value_expr source (fmt_place_expr destination ct).2).2 =
      addAll ct (ctsPlace destination ++ ctsValue source)
    rw [addAll_append, fmt_value_cts source _, fmt_place_cts destination ct]
  | .finalize place _, ct => fmt_place_cts place ct
  | .storageLive _, _ => rfl
  | .storageDead _, _ => rfl

/-- The return-place half of `fmt_call` folds the return place's composite
types. -/
theorem fmt_call_ret_cts : ∀ (ret : Option PlaceExpr) (ct : List CompType),
    (fmt_call_ret ret ct).2 =
      addAll ct (match ret with | some r => ctsPlace r | none => [])
  | some r, ct => fmt_place_cts r ct
  | none, _ => rfl

/-- `fmt_call` folds exactly the composite types `ctsCall` lists. -/
theorem fmt_call_cts (callee : String) (arguments : List ValueExpr)
    (ret : Option PlaceExpr) (next_block : Option Nat) (ct : List CompType) :
    (fmt_call callee arguments ret next_block ct).2 =
      addAll ct (ctsCall arguments ret) := by
  show (fmt_call_ret ret (fmt_value_exprs arguments ct).2).2 =
    addAll ct (ctsValues arguments ++ _)
  rw [addAll_append, fmt_call_ret_cts ret _, fmt_value_exprs_cts arguments ct]

/-- `fmt_terminator` folds exactly the composite types `ctsTerm` lists. -/
theorem fmt_terminator_cts : ∀ (t : Terminator) (ct : List CompType),
    (fmt_terminator t ct).2 = addAll ct (ctsTerm t)
  | .goto _, _ => rfl
  | .ite condition _ _, ct => fmt_value_cts condition ct
  | .unreachable, _ => rfl
  | .call callee arguments ret _, ct => by
    show (fmt_call _ (arguments.map Prod.fst) (ret.map Prod.fst) _
        (fmt_value_expr callee ct).2).2 =
      addAll ct (ctsValue callee ++ ctsCall (arguments.map Prod.fst) (ret.map Prod.fst))
    rw [addAll_append, fmt_call_cts, fmt_value_cts callee ct]
  | .become callee arguments, ct => by
    show (fmt_value_exprs (arguments.map Prod.fst) (fmt_value_expr callee ct).2).2 =
      addAll ct (ctsValue callee ++ ctsValues (arguments.map Prod.fst))
    rw [addAll_append, fmt_value_exprs_cts, fmt_value_cts callee ct]
  | .ret, _ => rfl
  | .callIntrinsic intrinsic arguments ret _, ct =>
    fmt_call_cts (intrinsic_name intrinsic) arguments ret _ ct

/-- `fmt_statements` folds exactly the composite types `ctsStmts` lists. -/
theorem fmt_statements_cts : ∀ (l : List Statement) (ct : List CompType),
    (fmt_statements l ct).2 = addAll ct (ctsStmts l)
  | [], _ => rfl
  | st :: rest, ct => by
    show (fmt_statements rest (fmt_statement st ct).2).2 =
      addAll ct (ctsStmt st ++ ctsStmts rest)
    rw [addAll_append, fmt_statements_cts rest _, fmt_statement_cts st ct]

/-- `fmt_bb` folds exactly the composite types `ctsBb` lists. -/
theorem fmt_bb_cts (bb_name : Nat) (bb : BasicBlock) (start : Bool)
    (ct : List CompType) :
    (fmt_bb bb_name bb start ct).2 = addAll ct (ctsBb bb) := by
  show (fmt_terminator bb.terminator (fmt_statements bb.statements ct).2).2 =
    addAll ct (ctsStmts bb.statements ++ ctsTerm bb.terminator)
  rw [addAll_append, fmt_terminator_cts bb.terminator _,
    fmt_statements_cts bb.statements ct]

/-- `fmt_locals` folds exactly the composite types `ctsLocals` lists. -/
theorem fmt_locals_cts : ∀ (l : List (Nat × PlaceType)) (ct : List CompType),
    (fmt_locals l ct).2 = addAll ct (ctsLocals l)
  | [], _ => rfl
  | (_, pty) :: rest, ct => by
    show (fmt_locals rest (fmt_ptype pty ct).2).2 =
      addAll ct (ctsPTy pty ++ ctsLocals rest)
    rw [addAll_append, fmt_locals_cts rest _, fmt_ptype_cts pty ct]

/-- `fmt_bbs` folds exactly the composite types `ctsBbs` lists. -/
theorem fmt_bbs_cts (startBb : Nat) :
    ∀ (l : List (Nat × BasicBlock)) (ct : List CompType),
    (fmt_bbs startBb l ct).2 = addAll ct (ctsBbs l)
  | [], _ => rfl
  | (name, bb) :: rest, ct => by
    show (fmt_bbs startBb rest (fmt_bb name bb (startBb == name) ct).2).2 =
      addAll ct (ctsBb bb ++ ctsBbs rest)
    rw [addAll_append, fmt_bbs_cts startBb rest _, fmt_bb_cts name bb _ ct]

/-- `fmt_function` folds exactly the composite types of its sorted locals
and sorted blocks. -/
theorem fmt_function_cts (fn_name : Nat) (f : Function) (start : Bool)
    (ct : List CompType) :
    (fmt_function fn_name f start ct).2 = addAll ct (ctsFnSorted f) := by
  show (fmt_bbs f.start (sortByKey f.blocks) (fmt_locals (sortByKey f.locals) ct).2).2 =
    addAll ct (ctsLocals (sortByKey f.locals) ++ ctsBbs (sortByKey f.blocks))
  rw [addAll_append, fmt_bbs_cts f.start (sortByKey f.blocks) _,
    fmt_locals_cts (sortByKey f.locals) ct]

/-- `fmt_fns` folds exactly the composite types of the listed functions. -/
theorem fmt_fns_cts (startFn : Nat) :
    ∀ (l : List (Nat × Function)) (ct : List CompType),
    (fmt_fns startFn l ct).2 = addAll ct (ctsFnsSorted l)
  | [], _ => rfl
  | (name, f) :: rest, ct => by
    show (fmt_fns startFn rest (fmt_function name f (startFn == name) ct).2).2 =
      addAll ct (ctsFnSorted f ++ ctsFnsSorted rest)
    rw [addAll_append, fmt_fns_cts startFn rest _, fmt_function_cts name f _ ct]

/-- `fmt_functions` folds exactly the composite types of the program's
functions, visited in name-sorted order. -/
theorem fmt_functions_cts (prog : Program) (ct : List CompType) :
    (fmt_functions prog ct).2 = addAll ct (ctsFnsSorted (sortByKey prog.functions)) :=
  fmt_fns_cts prog.start (sortByKey prog.functions) ct

/-! ## Membership in the collectors is order-independent -/

/-- Membership in the locals collector. -/
theorem mem_ctsLocals (x : CompType) : ∀ l : List (Nat × PlaceType),
    x ∈ ctsLocals l ↔ ∃ p, p ∈ l ∧ x ∈ ctsPTy p.2 := by
  intro l
  induction l with
  | nil => simp [ctsLocals]
  | cons hd rest ih =>
    obtain ⟨n, pty⟩ := hd
    simp only [ctsLocals, List.mem_append, ih, List.mem_cons]
    constructor
    · rintro (hx | ⟨p, hp, hm⟩)
      · exact ⟨(n, pty), Or.inl rfl, hx⟩
      · exact ⟨p, Or.inr hp, hm⟩
    · rintro ⟨p, hp | hp, hm⟩
      · cases hp; exact Or.inl hm
      · exact Or.inr ⟨p, hp, hm⟩

/-- Membership in the blocks collector. -/
theorem mem_ctsBbs (x : CompType) : ∀ l : List (Nat × BasicBlock),
    x ∈ ctsBbs l ↔ ∃ p, p ∈ l ∧ x ∈ ctsBb p.2 := by
  intro l
  induction l with
  | nil => simp [ctsBbs]
  | cons hd rest ih =>
    obtain ⟨n, bb⟩ := hd
    simp only [ctsBbs, List.mem_append, ih, List.mem_cons]
    constructor
    · rintro (hx | ⟨p, hp, hm⟩)
      · exact ⟨(n, bb), Or.inl rfl, hx⟩
      · exact ⟨p, Or.inr hp, hm⟩
    · rintro ⟨p, hp | hp, hm⟩
      · cases hp; exact Or.inl hm
      · exact Or.inr ⟨p, hp, hm⟩

/-- Sorting a function's locals and blocks does not change which composite
types it contributes. -/
theorem mem_ctsFnSorted (x : CompType) (f : Function) :
    x ∈ ctsFnSorted f ↔ x ∈ ctsFn f := by
  simp only [ctsFnSorted, ctsFn, List.mem_append, mem_ctsLocals, mem_ctsBbs]
  rw [exists_congr fun p =>
      and_congr_left fun _ => (sortByKey_perm f.locals).mem_iff,
    exists_congr fun p =>
      and_congr_left fun _ => (sortByKey_perm f.blocks).mem_iff]

/-- Membership in the function-list collector, formatter order. -/
theorem mem_ctsFnsSorted (x : CompType) : ∀ l : List (Nat × Function),
    x ∈ ctsFnsSorted l ↔ ∃ p, p ∈ l ∧ x ∈ ctsFn p.2 := by
  intro l
  induction l with
  | nil => simp [ctsFnsSorted]
  | cons hd rest ih =>
    obtain ⟨n, f⟩ := hd
    simp only [ctsFnsSorted, List.mem_append, ih, mem_ctsFnSorted, List.mem_cons]
    constructor
    · rintro (hx | ⟨p, hp, hm⟩)
      · exact ⟨(n, f), Or.inl rfl, hx⟩
      · exact ⟨p, Or.inr hp, hm⟩
    · rintro ⟨p, hp | hp, hm⟩
      · cases hp; exact Or.inl hm
      · exact Or.inr ⟨p, hp, hm⟩

/-- Membership in the function-list collector, declaration order. -/
theorem mem_ctsFns (x : CompType) : ∀ l : List (Nat × Function),
    x ∈ ctsFns l ↔ ∃ p, p ∈ l ∧ x ∈ ctsFn p.2 := by
  intro l
  induction l with
  | nil => simp [ctsFns]
  | cons hd rest ih =>
    obtain ⟨n, f⟩ := hd
    simp only [ctsFns, List.mem_append, ih, List.mem_cons]
    constructor
    · rintro (hx | ⟨p, hp, hm⟩)
      · exact ⟨(n, f), Or.inl rfl, hx⟩
      · exact ⟨p, Or.inr hp, hm⟩
    · rintro ⟨p, hp | hp, hm⟩
      · cases hp; exact Or.inl hm
      · exact Or.inr ⟨p, hp, hm⟩

/-! ## Claims about the pretty-printer -/

/-- C9: after `fmt_functions` formats a program into an empty accumulator,
the accumulated `comptypes` vector holds no composite type at two distinct
indices, holds exactly the composite types used within the program, and so
counts every used composite type exactly once. -/
theorem claim_C9 (prog : Program) :
    (fmt_functions prog []).2.Nodup ∧
    (∀ t : CompType, t ∈ (fmt_functions prog []).2 ↔ t ∈ usedComptypes prog) ∧
    (∀ t : CompType, t ∈ usedComptypes prog →
      (fmt_functions prog []).2.count t = 1) := by
  have h := fmt_functions_cts prog []
  have hnodup : (fmt_functions prog []).2.Nodup := by
    rw [h]; exact nodup_addAll _ _ List.nodup_nil
  have hmem : ∀ t : CompType,
      t ∈ (fmt_functions prog []).2 ↔ t ∈ usedComptypes prog := by
    intro t
    rw [h, mem_addAll, mem_ctsFnsSorted]
    rw [exists_congr fun p =>
      and_congr_left fun _ => (sortByKey_perm prog.functions).mem_iff]
    rw [← mem_ctsFns]
    simp [usedComptypes]
  exact ⟨hnodup, hmem, fun t ht =>
    List.count_eq_one_of_mem hnodup ((hmem t).mpr ht)⟩

/-- C10: the pretty-printer's output order is deterministic and name-sorted:
`fmt_functions` folds over the program's functions sorted ascending by their
internal name (a permutation of the program's function list), `fmt_function`
emits the locals and then the blocks each sorted ascending by name, and the
program's start function and a function's start block are prefixed with
"start". -/
theorem claim_C10 :
    (∀ prog : Program, ∀ ct,
      fmt_functions prog ct = fmt_fns prog.start (sortByKey prog.functions) ct) ∧
    (∀ prog : Program,
      List.Pairwise (fun a b : Nat × Function => a.1 ≤ b.1)
          (sortByKey prog.functions) ∧
        (sortByKey prog.functions).Perm prog.functions) ∧
    (∀ f : Function,
      List.Pairwise (fun a b : Nat × PlaceType => a.1 ≤ b.1)
          (sortByKey f.locals) ∧
        (sortByKey f.locals).Perm f.locals ∧
        List.Pairwise (fun a b : Nat × BasicBlock => a.1 ≤ b.1)
          (sortByKey f.blocks) ∧
        (sortByKey f.blocks).Perm f.blocks) ∧
    (∀ (fn_name : Nat) (f : Function) (start : Bool) (ct : List CompType),
      ∃ rest, (fmt_function fn_name f start ct).1 =
        (if start then "start fn " else "fn ") ++ rest) ∧
    (∀ (bb_name : Nat) (bb : BasicBlock) (start : Bool) (ct : List CompType),
      ∃ rest, (fmt_bb bb_name bb start ct).1 =
        (if start then "  start bb" else "  bb") ++ rest) := by
  refine ⟨fun prog ct => rfl, ?_, ?_, ?_, ?_⟩
  · intro prog
    exact ⟨sortByKey_pairwise prog.functions, sortByKey_perm prog.functions⟩
  · intro f
    exact ⟨sortByKey_pairwise f.locals, sortByKey_perm f.locals,
      sortByKey_pairwise f.blocks, sortByKey_perm f.blocks⟩
  · intro fn_name f start ct
    refine ⟨fmt_fn_name fn_name ++
      ("(" ++ String.intercalate ", " (f.args.map (fun x => fmt_local_name x.1)) ++
        ") " ++
        (match f.ret with
         | some (r, _) => "-> " ++ fmt_local_name r
         | none => "-/>") ++ " \x7b\n") ++
      ((fmt_locals (sortByKey f.locals) ct).1 ++
        ((fmt_bbs f.start (sortByKey f.blocks)
            (fmt_locals (sortByKey f.locals) ct).2).1 ++ "\x7d\n\n")), ?_⟩
    show (if start then "start fn " else "fn ") ++ fmt_fn_name fn_name ++ "(" ++
        String.intercalate ", " (f.args.map (fun x => fmt_local_name x.1)) ++
        ") " ++ _ ++ " \x7b\n" ++ _ ++ _ ++ "\x7d\n\n" = _
    simp only [String.append_assoc]
  · intro bb_name bb start ct
    refine ⟨toString bb_name ++ (":\n" ++
      ((fmt_statements bb.statements ct).1 ++
        ((fmt_terminator bb.terminator (fmt_statements bb.statements ct).2).1 ++
          "\n"))), ?_⟩
    show (if start then "  start bb" else "  bb") ++ toString bb_name ++ ":\n" ++
      _ ++ _ ++ "\n" = _
    simp only [String.append_assoc]

/-- Witness for C9: the empty tuple type, used by the demo program's only
local, ends up in the accumulator exactly once. -/
theorem claim_C9_witness :
    (fmt_functions fmtDemoProg []).2.count (Ty.tuple .nil 0 1) = 1 :=
  (claim_C9 fmtDemoProg).2.2 (Ty.tuple .nil 0 1) (by decide)
